import Mathlib

/-!
# Verification of the auto-wx-post resource-acquisition and upload-coordination core

Shallow embedding of the Go sources of `auto-wx-post`:

* `internal/cache/manager.go` — the durable content cache (`cache.Manager`);
* the WeChat client (`wechat` package): `Client.GetAccessToken`,
  `Client.refreshToken`, `Client.doRequestWithRetry`;
* the media manager (`media` package): `Manager.UploadImage`,
  `Manager.UploadImagesConcurrently`, `Manager.downloadImage`,
  `Manager.Cleanup`, `Manager.imageDigest`, `Manager.parseCachedInfo`.

External effects (the MD5 digest, the network, the clock, the file system)
are modeled as explicit parameters and explicit pieces of state; machine
time is an integer number of seconds.
-/

namespace AutoWxPost

/-! ## Content cache — `internal/cache/manager.go`

The Go `map[string]*CacheEntry` is modeled as an association list with
at most one binding per key (`mapSet` replaces in place).  The persisted
store file is `Option (List CacheEntry)` (`none` = file absent);
`json.Marshal` / `json.Unmarshal` of the entry slice is modeled as the
identity round-trip on the entry list. -/

/-- `CacheEntry` (manager.go): key, value and creation timestamp. -/
structure CacheEntry where
  key : String
  value : String
  timestamp : Int
deriving Repr, DecidableEq

/-- Lookup in the modeled Go map. -/
def mapGet : List (String × CacheEntry) → String → Option CacheEntry
  | [], _ => none
  | (k', e) :: rest, k => if k' = k then some e else mapGet rest k

/-- Insert-or-overwrite in the modeled Go map: replaces the binding for `k`
if present, otherwise appends it. -/
def mapSet : List (String × CacheEntry) → String → CacheEntry →
    List (String × CacheEntry)
  | [], k, e => [(k, e)]
  | (k', e') :: rest, k, e =>
      if k' = k then (k, e) :: rest else (k', e') :: mapSet rest k e

/-- Number of bindings for key `k` in the store. -/
def keyCount : List (String × CacheEntry) → String → Nat
  | [], _ => 0
  | (k', _) :: rest, k => (if k' = k then 1 else 0) + keyCount rest k

/-- `cache.Manager`: the in-memory store (the mutex is irrelevant to the
sequential model). -/
structure CacheManager where
  store : List (String × CacheEntry)
deriving Repr, DecidableEq

/-- Contents of the persisted store file (`none` = absent). -/
abbrev StoreFile := Option (List CacheEntry)

/-- `Manager.Get`: returns `(value, found)`. -/
def CacheManager.get (m : CacheManager) (k : String) : String × Bool :=
  match mapGet m.store k with
  | none => ("", false)
  | some e => (e.value, true)

/-- `Manager.save`'s serialized data: the entry list of the store. -/
def CacheManager.saveData (m : CacheManager) : List CacheEntry :=
  m.store.map (·.2)

/-- `Manager.Set` (manager.go lines 55-66): update the in-memory map first,
then rewrite the persisted file.  `writeOk = false` models an
`os.WriteFile` failure: the in-memory update is kept, the file is left
unchanged, and an error is returned. -/
def CacheManager.set (m : CacheManager) (k v : String) (now : Int)
    (file : StoreFile) (writeOk : Bool) :
    CacheManager × StoreFile × Option String :=
  let m' : CacheManager := ⟨mapSet m.store k ⟨k, v, now⟩⟩
  if writeOk then (m', some m'.saveData, none)
  else (m', file, some "write cache file")

/-- `Manager.load`'s loop: insert each persisted entry into the map, keyed
by the entry's own `Key` field. -/
def loadInto (store : List (String × CacheEntry)) (entries : List CacheEntry) :
    List (String × CacheEntry) :=
  entries.foldl (fun s e => mapSet s e.key e) store

/-- `cache.NewManager`: start from an empty map and load the persisted file
(absence of the file is not an error: empty cache). -/
def newCacheManager (file : StoreFile) : CacheManager :=
  match file with
  | none => ⟨[]⟩
  | some entries => ⟨loadInto [] entries⟩

/-- Well-formedness of a store: at most one binding per key, and each
binding's entry records its own key (both hold for every store the Go
code can build: the map structurally, the entry because `Set` writes
`&CacheEntry{Key: key, ...}`). -/
def StoreWF (s : List (String × CacheEntry)) : Prop :=
  (∀ k, keyCount s k ≤ 1) ∧ ∀ p ∈ s, p.2.key = p.1

/-! ## Retrying requester — `Client.doRequestWithRetry` (wechat client,
lines 183-238)

The network is an oracle `attempt : Nat → AttemptOutcome` giving the
outcome of the i-th HTTP attempt, and `cancelled : Nat → Bool` says
whether the context is already cancelled when the backoff select before
attempt `i` runs.  Request construction (`http.NewRequestWithContext`)
is deterministic on a well-formed URL and never fails here. -/

/-- Outcome of one HTTP attempt as seen by the retry loop. -/
inductive AttemptOutcome where
  | connFail (msg : String)
  | bodyFail (msg : String)
  | status (code : Nat) (body : String) (decodeOk : Bool)
deriving Repr, DecidableEq

/-- Result of `doRequestWithRetry`. -/
inductive DoResult where
  | success (body : String)
  | parseError (body : String)
  | httpError (code : Nat) (body : String)
  | ctxCancelled
  | retriesExceeded (lastErr : Option String)
deriving Repr, DecidableEq

/-- One attempt in the run trace: its index and the backoff wait performed
immediately before it (`none` on the first attempt). -/
structure Attempt where
  idx : Nat
  waited : Option Nat
deriving Repr, DecidableEq

/-- Whether the loop treats an attempt outcome as retryable
(connection failure, body-read failure, or status ≥ 500). -/
def retryable : AttemptOutcome → Bool
  | .connFail _ => true
  | .bodyFail _ => true
  | .status c _ _ => 500 ≤ c

/-- The `lastErr` the loop records for a retryable outcome. -/
def errOf : AttemptOutcome → String
  | .connFail m => m
  | .bodyFail m => m
  | .status c _ _ => "server error: " ++ toString c

/-- The trace record for attempt `i`: before a retry (`0 < i`) the loop
waits `BaseDelay * 2^(i-1)`. -/
def attRec (base i : Nat) : Attempt :=
  ⟨i, if 0 < i then some (base * 2 ^ (i - 1)) else none⟩

/-- Prefix one attempt record onto a loop result. -/
def prepend (a : Attempt) (r : DoResult × List Attempt) :
    DoResult × List Attempt :=
  (r.1, a :: r.2)

/-- The body of `doRequestWithRetry`, structurally recursive on the number
of remaining tries (`remaining = MaxRetries + 1 - i` on entry). -/
def retryLoop (base : Nat) (attempt : Nat → AttemptOutcome)
    (cancelled : Nat → Bool) :
    Nat → Nat → Option String → DoResult × List Attempt
  | 0, _, lastErr => (.retriesExceeded lastErr, [])
  | remaining + 1, i, _lastErr =>
      if 0 < i ∧ cancelled i = true then (.ctxCancelled, [])
      else
        match attempt i with
        | .connFail m =>
            prepend (attRec base i)
              (retryLoop base attempt cancelled remaining (i + 1) (some m))
        | .bodyFail m =>
            prepend (attRec base i)
              (retryLoop base attempt cancelled remaining (i + 1) (some m))
        | .status c body dec =>
            if 500 ≤ c then
              prepend (attRec base i)
                (retryLoop base attempt cancelled remaining (i + 1)
                  (some ("server error: " ++ toString c)))
            else if c ≠ 200 then (.httpError c body, [attRec base i])
            else if dec then (.success body, [attRec base i])
            else (.parseError body, [attRec base i])

/-- `Client.doRequestWithRetry`: up to `MaxRetries + 1` attempts starting
from attempt 0 with `lastErr = nil`. -/
def doRequestWithRetry (base maxRetries : Nat)
    (attempt : Nat → AttemptOutcome) (cancelled : Nat → Bool) :
    DoResult × List Attempt :=
  retryLoop base attempt cancelled (maxRetries + 1) 0 none

/-- The canonical segment of `k` attempt records starting at index `i`. -/
def attemptsSeg (base : Nat) : Nat → Nat → List Attempt
  | _, 0 => []
  | i, k + 1 => attRec base i :: attemptsSeg base (i + 1) k

/-- The `lastErr` value held after skipping `k` retryable attempts that
started at index `i` (it stays `le` when `k = 0`). -/
def skipErr (att : Nat → AttemptOutcome) (i : Nat) :
    Nat → Option String → Option String
  | 0, le => le
  | k + 1, _ => some (errOf (att (i + k)))

/-- Attempt oracle that always fails to connect. -/
def attConnBoom : Nat → AttemptOutcome := fun _ => .connFail "boom"

/-- Attempt oracle that always returns HTTP 503. -/
def att503 : Nat → AttemptOutcome := fun _ => .status 503 "svc" true

/-- Attempt oracle that always returns HTTP 201 (a non-200 2xx). -/
def att201 : Nat → AttemptOutcome := fun _ => .status 201 "created" true

/-- Attempt oracle that always returns HTTP 404. -/
def att404 : Nat → AttemptOutcome := fun _ => .status 404 "nf" true

/-- Attempt oracle that always returns HTTP 200 with a decodable body. -/
def att200 : Nat → AttemptOutcome := fun _ => .status 200 "okbody" true

/-- Context that is never cancelled. -/
def cnlNever : Nat → Bool := fun _ => false

/-- Context that is cancelled from the backoff before attempt 2 on. -/
def cnlAt2 : Nat → Bool := fun j => decide (2 ≤ j)

/-! ## Credential manager — `Client.GetAccessToken` / `Client.refreshToken`
(wechat client, lines 128-180)

Machine time is frozen at `now` for the duration of a call; the token
endpoint is an oracle. -/

/-- `wechat.Token`: access token and computed expiry (seconds). -/
structure Token where
  accessToken : String
  expiresAt : Int
deriving Repr, DecidableEq

/-- The client's mutable token state (`Client.token`; `none` = `nil`). -/
structure ClientState where
  token : Option Token
deriving Repr, DecidableEq

/-- What `refreshToken` observes from its `doRequestWithRetry` call:
either a request error, or a decoded
`{access_token, expires_in, errcode, errmsg}` response. -/
inductive TokenFetchOutcome where
  | reqError (msg : String)
  | response (accessToken : String) (expiresIn : Int) (errcode : Int)
      (errmsg : String)
deriving Repr, DecidableEq

/-- `Client.refreshToken` (lines 150-180): on a request error or a non-zero
`errcode`, return the error and leave the stored token untouched;
otherwise store `{accessToken, expiresAt = now + (expiresIn - 300)}`
(the 5-minute safety margin) and return the new token. -/
def refreshToken (now : Int) (st : ClientState)
    (outcome : TokenFetchOutcome) : Except String String × ClientState :=
  match outcome with
  | .reqError m => (.error ("fetch access token: " ++ m), st)
  | .response tok expiresIn errcode errmsg =>
      if errcode ≠ 0 then
        (.error ("wechat api error: " ++ toString errcode ++ " - " ++ errmsg),
          st)
      else
        let t : Token := ⟨tok, now + (expiresIn - 300)⟩
        (.ok t.accessToken, ⟨some t⟩)

/-- `Client.GetAccessToken` (lines 128-147), sequential view: return the
cached token while `now < expiresAt` (the fast path and the double check
read the same state in a sequential execution), otherwise refresh. -/
def getAccessToken (now : Int) (st : ClientState)
    (outcome : TokenFetchOutcome) : Except String String × ClientState :=
  match st.token with
  | some t =>
      if now < t.expiresAt then (.ok t.accessToken, st)
      else refreshToken now st outcome
  | none => refreshToken now st outcome

/-! ### Interleaving model of concurrent `GetAccessToken` calls

Each caller goroutine is in one of three phases.  The fast-path check
runs under the read lock and the recheck-then-refresh critical section
under the exclusive lock, so each is one atomic step of the model; the
window between them is preserved as a separate phase. -/

/-- Phase of one goroutine inside `GetAccessToken`. -/
inductive TPhase where
  | start
  | lockWait
  | done (result : Except String String)
deriving Repr

/-- Global state of the concurrent token model. -/
structure CTokState where
  client : ClientState
  fetchCount : Nat
  threads : List TPhase
deriving Repr

/-- The validity check `c.token != nil && time.Now().Before(c.token.ExpiresAt)`. -/
def tokenValid (now : Int) : Option Token → Bool
  | none => false
  | some t => decide (now < t.expiresAt)

/-- One interleaving step of N concurrent `GetAccessToken` calls at frozen
time `now`; `fetch k` is the outcome of the (k+1)-st token-endpoint
request. -/
inductive TokStep (now : Int) (fetch : Nat → TokenFetchOutcome) :
    CTokState → CTokState → Prop
  | fastHit (s : CTokState) (i : Nat) (t : Token)
      (hi : s.threads.get? i = some .start)
      (ht : s.client.token = some t)
      (hv : now < t.expiresAt) :
      TokStep now fetch s
        { s with threads := s.threads.set i (.done (.ok t.accessToken)) }
  | fastMiss (s : CTokState) (i : Nat)
      (hi : s.threads.get? i = some .start)
      (hv : tokenValid now s.client.token = false) :
      TokStep now fetch s { s with threads := s.threads.set i .lockWait }
  | critHit (s : CTokState) (i : Nat) (t : Token)
      (hi : s.threads.get? i = some .lockWait)
      (ht : s.client.token = some t)
      (hv : now < t.expiresAt) :
      TokStep now fetch s
        { s with threads := s.threads.set i (.done (.ok t.accessToken)) }
  | critRefresh (s : CTokState) (i : Nat)
      (hi : s.threads.get? i = some .lockWait)
      (hv : tokenValid now s.client.token = false) :
      TokStep now fetch s
        { client := (refreshToken now s.client (fetch s.fetchCount)).2
          fetchCount := s.fetchCount + 1
          threads := s.threads.set i
            (.done (refreshToken now s.client (fetch s.fetchCount)).1) }

/-- Reachability under the interleaving semantics. -/
def TokReach (now : Int) (fetch : Nat → TokenFetchOutcome) :
    CTokState → CTokState → Prop :=
  Relation.ReflTransGen (TokStep now fetch)

/-- Single-flight invariant: starting from the stale token `t₀`, either no
refresh has happened (token still `t₀`, nobody done) or exactly one has
(token is the fresh one, every finished caller got it); the number of
caller threads never changes. -/
def TokInv (t₀ : Option Token) (freshTok : Token) (n : Nat)
    (s : CTokState) : Prop :=
  s.threads.length = n ∧
  ((s.fetchCount = 0 ∧ s.client.token = t₀ ∧
      ∀ p ∈ s.threads, p = .start ∨ p = .lockWait) ∨
    (s.fetchCount = 1 ∧ s.client.token = some freshTok ∧
      ∀ p ∈ s.threads, p = .start ∨ p = .lockWait ∨
        p = .done (.ok freshTok.accessToken)))

/-- The token-endpoint oracle used by the C2 witness. -/
def fetchW : Nat → TokenFetchOutcome := fun _ => .response "tok" 7200 0 ""

/-- Witness trace states: two callers, both miss the fast path, the first
refreshes under the lock, the second hits the double check. -/
def cs0 : CTokState := ⟨⟨none⟩, 0, [.start, .start]⟩

def cs1 : CTokState := ⟨⟨none⟩, 0, [.lockWait, .start]⟩

def cs2 : CTokState := ⟨⟨none⟩, 0, [.lockWait, .lockWait]⟩

def cs3 : CTokState :=
  ⟨⟨some ⟨"tok", 0 + (7200 - 300)⟩⟩, 1, [.done (.ok "tok"), .lockWait]⟩

def cs4 : CTokState :=
  ⟨⟨some ⟨"tok", 0 + (7200 - 300)⟩⟩, 1,
    [.done (.ok "tok"), .done (.ok "tok")]⟩

/-! ## Media manager — the `media` package -/

/-- `media.ImageInfo`. -/
structure ImageInfo where
  mediaID : String
  url : String
deriving Repr, DecidableEq

/-- Outcome of downloading one URL (`Manager.downloadImage`):
success; a failure before the temp file exists (request error, non-200
status, or `os.Create` error); or an `io.Copy` failure after the file
was created (the file stays on disk, an error is returned). -/
inductive DlOutcome where
  | ok
  | failNoFile (msg : String)
  | failAfterCreate (msg : String)
deriving Repr, DecidableEq

/-- External world of the media manager: the hex MD5 digest of a string
(uninterpreted), `path.Ext` of a URL's path (uninterpreted), the
download and upload network oracles, the clock, and whether the cache
file write succeeds.  Changing the bytes behind a path or URL changes
`download`/`uploadResult`, never `md5hex`. -/
structure MediaEnv where
  md5hex : String → String
  urlExt : String → String
  download : String → DlOutcome
  uploadResult : String → Except String ImageInfo
  now : Int
  cacheWriteOk : Bool

/-- Mutable state touched by the media manager: the shared cache map and
its persisted file, the tracked temp files, and the set of files
existing in the temp directory. -/
structure MediaState where
  cache : List (String × CacheEntry)
  cacheFile : StoreFile
  tempFiles : List String
  disk : List String
deriving Repr, DecidableEq

/-- Network events performed by the media manager, each tagged with the
original reference being processed. -/
inductive NetEvent where
  | download (url : String)
  | upload (ref : String) (localPath : String)
deriving Repr, DecidableEq

/-- `Manager.imageDigest` (media, lines 334-337): `img_` + hex MD5 of the
*reference string* (never of the file's bytes). -/
def imageDigest (env : MediaEnv) (imagePath : String) : String :=
  "img_" ++ env.md5hex imagePath

/-- `isURL` (media, lines 349-351). -/
def isURL (path : String) : Bool :=
  path.length > 7 &&
    (path.take 7 == "http://" || path.take 8 == "https://")

/-- The characters Go's scanner treats as white space (ASCII part). -/
def isSpaceChar (c : Char) : Bool :=
  c = ' ' || c = '\t' || c = '\n' || c = '\r' ||
    c = Char.ofNat 11 || c = Char.ofNat 12

/-- `fmt.Sscanf`'s `%s` verb: skip leading white space, then read the
maximal run of non-space characters; an empty token is a scan error. -/
def scanToken (cs : List Char) : Option (String × List Char) :=
  match cs.dropWhile isSpaceChar with
  | [] => none
  | c :: rest =>
      some (String.mk ((c :: rest).takeWhile (fun c => !isSpaceChar c)),
        (c :: rest).dropWhile (fun c => !isSpaceChar c))

/-- `Manager.parseCachedInfo` (media, lines 340-346):
`fmt.Sscanf(cached, "%s|%s", &mediaID, &url)` — after the first `%s` the
format requires the literal `'|'` to match the next input character
exactly. -/
def parseCachedInfo (cached : String) : Except String ImageInfo :=
  match scanToken cached.toList with
  | none => .error "parse cached info"
  | some (mediaID, rest) =>
      match rest with
      | [] => .error "parse cached info"
      | c :: rest' =>
          if c = '|' then
            match scanToken rest' with
            | none => .error "parse cached info"
            | some (url, _) => .ok ⟨mediaID, url⟩
          else .error "parse cached info"

/-- The temp file path `downloadImage` writes: `TempDir/` + hex MD5 of the
full URL + the URL path's extension (default `.png`). -/
def tempPathOf (env : MediaEnv) (tempDir imgURL : String) : String :=
  let ext := if env.urlExt imgURL = "" then ".png" else env.urlExt imgURL
  tempDir ++ "/" ++ env.md5hex imgURL ++ ext

/-- Add a file to the modeled temp directory. -/
def insertFile (p : String) (d : List String) : List String :=
  if p ∈ d then d else p :: d

/-- The keep-predicate of `Cleanup`'s removal pass. -/
def keptAfterCleanup (tempFiles : List String) (f : String) : Bool :=
  decide (f ∉ tempFiles)

/-- `Manager.downloadImage` (media, lines 257-304).  (URL-parse failure is
not modeled: the references the program feeds it are parseable.) -/
def downloadImage (env : MediaEnv) (tempDir : String) (st : MediaState)
    (imgURL : String) : Except String String × MediaState × List NetEvent :=
  match env.download imgURL with
  | .failNoFile m => (.error m, st, [.download imgURL])
  | .failAfterCreate m =>
      (.error m,
        { st with disk := insertFile (tempPathOf env tempDir imgURL) st.disk },
        [.download imgURL])
  | .ok =>
      let p := tempPathOf env tempDir imgURL
      (.ok p, { st with disk := insertFile p st.disk }, [.download imgURL])

/-- `Manager.UploadImage` (media, lines 170-209): cache check, resolution
(download when the reference is a URL, tracking the temp file), network
upload, then cache recording (a cache-persist failure only warns). -/
def uploadImage (env : MediaEnv) (tempDir : String) (st : MediaState)
    (imagePath : String) :
    Except String ImageInfo × MediaState × List NetEvent :=
  match mapGet st.cache (imageDigest env imagePath) with
  | some e => (parseCachedInfo e.value, st, [])
  | none =>
      let resolved : Except String String × MediaState × List NetEvent :=
        if isURL imagePath then
          match downloadImage env tempDir st imagePath with
          | (.error m, st', tr) => (.error ("download image: " ++ m), st', tr)
          | (.ok p, st', tr) =>
              (.ok p, { st' with tempFiles := st'.tempFiles ++ [p] }, tr)
        else (.ok imagePath, st, [])
      match resolved with
      | (.error m, st', tr) => (.error m, st', tr)
      | (.ok localPath, st', tr) =>
          match env.uploadResult localPath with
          | .error m =>
              (.error ("upload to wechat: " ++ m), st',
                tr ++ [.upload imagePath localPath])
          | .ok info =>
              let cv := info.mediaID ++ "|" ++ info.url
              let c := CacheManager.set ⟨st'.cache⟩
                (imageDigest env imagePath) cv env.now st'.cacheFile
                env.cacheWriteOk
              (.ok info,
                { st' with cache := c.1.store, cacheFile := c.2.1 },
                tr ++ [.upload imagePath localPath])

/-- Result of a batch: the per-reference success map and the per-reference
error list (the aggregate error the batch returns enumerates exactly
this list; it is `nil` iff the list is empty). -/
structure BatchResult where
  results : List (String × ImageInfo)
  errs : List (String × String)
deriving Repr, DecidableEq

/-- `Manager.UploadImagesConcurrently` (media, lines 212-254), linearized:
each listed reference runs `UploadImage` exactly once; a success is
recorded in the result map, a failure is recorded as
`"upload <ref>: <err>"` against that reference without aborting the
others.  (The semaphore only bounds parallelism and the mutexes make
the map/slice/state updates atomic, so per-target outcomes are those of
some linearization.) -/
def uploadBatch (env : MediaEnv) (tempDir : String) (st : MediaState) :
    List String → BatchResult × MediaState × List NetEvent
  | [] => (⟨[], []⟩, st, [])
  | p :: rest =>
      match uploadImage env tempDir st p with
      | (.ok info, st', tr) =>
          let r := uploadBatch env tempDir st' rest
          (⟨(p, info) :: r.1.results, r.1.errs⟩, r.2.1, tr ++ r.2.2)
      | (.error m, st', tr) =>
          let r := uploadBatch env tempDir st' rest
          (⟨r.1.results, (p, "upload " ++ p ++ ": " ++ m) :: r.1.errs⟩,
            r.2.1, tr ++ r.2.2)

/-- `Manager.Cleanup` (media, lines 314-331): best-effort removal of every
tracked temp file (a missing file is not an error), then reset the
tracked list. -/
def cleanup (st : MediaState) : MediaState :=
  { st with
      disk := st.disk.filter (keptAfterCleanup st.tempFiles)
      tempFiles := [] }

/-- Lookup in the batch result map. -/
def lookupRes : List (String × ImageInfo) → String → Option ImageInfo
  | [], _ => none
  | (q, info) :: rest, p => if q = p then some info else lookupRes rest p

/-- Number of network upload calls made for reference `p` in a trace. -/
def uploadCount : List NetEvent → String → Nat
  | [], _ => 0
  | .download _ :: tr, p => uploadCount tr p
  | .upload r _ :: tr, p => (if r = p then 1 else 0) + uploadCount tr p

/-- Number of network download calls made for reference `p` in a trace. -/
def downloadCount : List NetEvent → String → Nat
  | [], _ => 0
  | .download u :: tr, p => (if u = p then 1 else 0) + downloadCount tr p
  | .upload _ _ :: tr, p => downloadCount tr p

/-- The outcome `UploadImage` has for a reference processed on a cache
miss, independent of the rest of the state (what the reference would do
"alone"). -/
def soloOutcome (env : MediaEnv) (tempDir p : String) :
    Except String ImageInfo :=
  (uploadImage env tempDir ⟨[], none, [], []⟩ p).1

/-- The network trace `UploadImage` produces for a reference processed on
a cache miss. -/
def soloTrace (env : MediaEnv) (tempDir p : String) : List NetEvent :=
  (uploadImage env tempDir ⟨[], none, [], []⟩ p).2.2

/-- Concrete media environment for witnesses: identity digest, every
download succeeds, every upload returns a fixed result. -/
def envIdOk : MediaEnv :=
  ⟨fun s => s, fun _ => "", fun _ => .ok,
    fun _ => .ok ⟨"mid1", "http://cdn/a.png"⟩, 0, true⟩

/-- Witness environment where uploading `/bad.png` always fails and every
other upload succeeds. -/
def envMixed : MediaEnv :=
  ⟨fun s => s, fun _ => "", fun _ => .ok,
    fun lp => if lp = "/bad.png" then .error "boom" else .ok ⟨"mid1", "u1"⟩,
    0, true⟩

/-- Witness environment with the same digest function as `envIdOk` but
changed content behind every reference (all network behavior differs). -/
def envChanged : MediaEnv :=
  ⟨fun s => s, fun _ => "", fun _ => .failNoFile "nc",
    fun _ => .error "changed", 0, true⟩

/-! Basic store lemmas. -/

theorem mapGet_mapSet_self (s : List (String × CacheEntry)) (k : String)
    (e : CacheEntry) : mapGet (mapSet s k e) k = some e := by
  induction s with
  | nil => simp [mapSet, mapGet]
  | cons p rest ih =>
      obtain ⟨k', e'⟩ := p
      by_cases h : k' = k
      · simp [mapSet, h, mapGet]
      · simpa [mapSet, h, mapGet] using ih

theorem mapGet_mapSet_ne (s : List (String × CacheEntry)) (k k' : String)
    (e : CacheEntry) (h : k ≠ k') :
    mapGet (mapSet s k e) k' = mapGet s k' := by
  induction s with
  | nil => simp [mapSet, mapGet, h]
  | cons p rest ih =>
      obtain ⟨k₀, e₀⟩ := p
      by_cases h₀ : k₀ = k
      · subst h₀
        simp [mapSet, mapGet, h, Ne.symm h]
      · by_cases h₁ : k₀ = k'
        · subst h₁
          simp [mapSet, mapGet, h₀]
        · simpa [mapSet, mapGet, h₀, h₁] using ih

theorem keyCount_mapSet (s : List (String × CacheEntry)) (k : String)
    (e : CacheEntry) (h : keyCount s k ≤ 1) :
    keyCount (mapSet s k e) k = 1 := by
  induction s with
  | nil => simp [mapSet, keyCount]
  | cons p rest ih =>
      obtain ⟨k', e'⟩ := p
      by_cases hk : k' = k
      · subst hk
        have h0 : keyCount rest k' = 0 := by
          simp [keyCount] at h; omega
        simp [mapSet, keyCount, h0]
      · have h' : keyCount rest k ≤ 1 := by
          simpa [keyCount, hk] using h
        simpa [mapSet, keyCount, hk] using ih h'

theorem keyCount_mapSet_ne (s : List (String × CacheEntry)) (k k' : String)
    (e : CacheEntry) (h : k ≠ k') :
    keyCount (mapSet s k e) k' = keyCount s k' := by
  induction s with
  | nil => simp [mapSet, keyCount, h, Ne.symm h]
  | cons p rest ih =>
      obtain ⟨k₀, e₀⟩ := p
      by_cases h₀ : k₀ = k
      · subst h₀
        simp [mapSet, keyCount, h, Ne.symm h]
      · simp [mapSet, keyCount, h₀, ih]

theorem mem_mapSet (s : List (String × CacheEntry)) (k : String)
    (e : CacheEntry) (p : String × CacheEntry) (hp : p ∈ mapSet s k e) :
    p = (k, e) ∨ p ∈ s := by
  induction s with
  | nil => simpa [mapSet] using hp
  | cons q rest ih =>
      obtain ⟨k₀, e₀⟩ := q
      by_cases h₀ : k₀ = k
      · subst h₀
        simp [mapSet] at hp
        rcases hp with h | h
        · left; simp [h]
        · right; simp [h]
      · simp [mapSet, h₀] at hp
        rcases hp with h | h
        · right; simp [h]
        · rcases ih h with h' | h'
          · left; exact h'
          · right; simp [h']

theorem storeWF_mapSet (s : List (String × CacheEntry)) (k : String)
    (e : CacheEntry) (hwf : StoreWF s) (hk : e.key = k) :
    StoreWF (mapSet s k e) := by
  constructor
  · intro k'
    by_cases h : k = k'
    · subst h
      exact le_of_eq (keyCount_mapSet s k e (hwf.1 k))
    · rw [keyCount_mapSet_ne s k k' e h]
      exact hwf.1 k'
  · intro p hp
    rcases mem_mapSet s k e p hp with h | h
    · subst h; exact hk
    · exact hwf.2 p h

theorem keyCount_eq_zero_not_mem (s : List (String × CacheEntry)) (k : String)
    (h : keyCount s k = 0) : ∀ e, (k, e) ∉ s := by
  induction s with
  | nil => simp
  | cons p rest ih =>
      obtain ⟨k₀, e₀⟩ := p
      by_cases h₀ : k₀ = k
      · subst h₀; simp [keyCount] at h
      · simp [keyCount, h₀] at h
        intro e
        simp [Ne.symm h₀]
        exact fun hmem => ih h e hmem

theorem mapGet_mem (s : List (String × CacheEntry)) (k : String)
    (e : CacheEntry) (h : mapGet s k = some e) : (k, e) ∈ s := by
  induction s with
  | nil => simp [mapGet] at h
  | cons p rest ih =>
      obtain ⟨k₀, e₀⟩ := p
      by_cases h₀ : k₀ = k
      · subst h₀
        simp [mapGet] at h
        simp [h]
      · simp [mapGet, h₀] at h
        simp [ih h]

/-- Loading entries none of which carries key `k` leaves the lookup of `k`
unchanged. -/
theorem loadInto_skip (es : List CacheEntry)
    (acc : List (String × CacheEntry)) (k : String)
    (h : ∀ e ∈ es, e.key ≠ k) :
    mapGet (loadInto acc es) k = mapGet acc k := by
  induction es generalizing acc with
  | nil => simp [loadInto]
  | cons e t ih =>
      have he : e.key ≠ k := h e (by simp)
      have ht : ∀ e' ∈ t, e'.key ≠ k := fun e' h' => h e' (by simp [h'])
      calc mapGet (loadInto acc (e :: t)) k
          = mapGet (loadInto (mapSet acc e.key e) t) k := by simp [loadInto]
        _ = mapGet (mapSet acc e.key e) k := ih (mapSet acc e.key e) ht
        _ = mapGet acc k := mapGet_mapSet_ne acc e.key k e he

/-- Loading a key-nodup entry list recovers each entry. -/
theorem loadInto_found (es : List CacheEntry)
    (acc : List (String × CacheEntry)) (k : String) (e : CacheEntry)
    (hnd : (es.map (·.key)).Nodup) (hmem : e ∈ es) (hk : e.key = k) :
    mapGet (loadInto acc es) k = some e := by
  induction es generalizing acc with
  | nil => simp at hmem
  | cons h t ih =>
      by_cases hh : h.key = k
      · have hnk : ∀ e' ∈ t, e'.key ≠ k := by
          intro e' h' hke
          have : h.key ∈ t.map (·.key) := by
            rw [hh, ← hke]; exact List.mem_map_of_mem _ h'
          simp [List.nodup_cons] at hnd
          exact hnd.1 e' h' (by rw [hke, hh])
        have he : e = h := by
          rcases List.mem_cons.mp hmem with h' | h'
          · exact h'
          · exact absurd hk (hnk e h')
        subst he
        calc mapGet (loadInto acc (e :: t)) k
            = mapGet (loadInto (mapSet acc e.key e) t) k := by simp [loadInto]
          _ = mapGet (mapSet acc e.key e) k := loadInto_skip t _ k hnk
          _ = some e := by rw [hk]; exact mapGet_mapSet_self acc k e
      · have hmem' : e ∈ t := by
          rcases List.mem_cons.mp hmem with h' | h'
          · exact absurd (h' ▸ hk) hh
          · exact h'
        have hnd' : (t.map (·.key)).Nodup := (List.nodup_cons.mp hnd).2
        calc mapGet (loadInto acc (h :: t)) k
            = mapGet (loadInto (mapSet acc h.key h) t) k := by simp [loadInto]
          _ = some e := ih (mapSet acc h.key h) hnd' hmem'

/-- The keys of a well-formed store's serialized entry list are nodup. -/
theorem saveData_keys_nodup (s : List (String × CacheEntry))
    (hwf : StoreWF s) : ((s.map (·.2)).map (·.key)).Nodup := by
  have hmapeq : (s.map (·.2)).map (·.key) = s.map (·.1) := by
    rw [List.map_map]
    exact List.map_congr_left fun p hp => hwf.2 p hp
  rw [hmapeq]
  clear hmapeq
  have hcount := hwf.1
  clear hwf
  induction s with
  | nil => simp
  | cons p rest ih =>
      obtain ⟨k₀, e₀⟩ := p
      have h0 : keyCount rest k₀ = 0 := by
        have := hcount k₀
        simp [keyCount] at this
        omega
      refine List.nodup_cons.mpr ⟨?_, ?_⟩
      · intro hmem
        rcases List.mem_map.mp hmem with ⟨q, hq, hqk⟩
        have hq1 : q.1 = k₀ := by simpa using hqk
        have hnot := keyCount_eq_zero_not_mem rest k₀ h0 q.2
        rw [← hq1] at hnot
        exact hnot (by simpa using hq)
      · refine ih fun k => ?_
        have := hcount k
        simp [keyCount] at this
        omega

/-- A lookup hit survives serialization and reload. -/
theorem reload_get (s : List (String × CacheEntry)) (k : String)
    (e : CacheEntry) (hwf : StoreWF s) (h : mapGet s k = some e) :
    mapGet (loadInto [] (s.map (·.2))) k = some e := by
  have hmem : (k, e) ∈ s := mapGet_mem s k e h
  have hke : e.key = k := hwf.2 (k, e) hmem
  exact loadInto_found (s.map (·.2)) [] k e (saveData_keys_nodup s hwf)
    (List.mem_map_of_mem _ hmem) hke

/-- The manager `Set` returns is the in-memory update, whether or not the
persist succeeded. -/
theorem set_fst (m : CacheManager) (k v : String) (t : Int) (f : StoreFile)
    (w : Bool) : (m.set k v t f w).1 = ⟨mapSet m.store k ⟨k, v, t⟩⟩ := by
  cases w <;> rfl

/-- A `Set` whose persist succeeded wrote the serialized store. -/
theorem set_file_ok (m : CacheManager) (k v : String) (t : Int)
    (f : StoreFile) : (m.set k v t f true).2.1 =
      some (CacheManager.saveData ⟨mapSet m.store k ⟨k, v, t⟩⟩) := rfl

/-- C7: `Set(k, v1)` then `Set(k, v2)` leaves exactly one entry for `k`,
holding `v2`; and any `Set(k, v)` that returns without error is observed
by `Get k = (v, found)` on a fresh manager reloaded from the store file. -/
theorem claim_C7 :
    (∀ (m : CacheManager) (k v₁ v₂ : String) (t₁ t₂ : Int)
        (f₁ f₂ : StoreFile) (w₁ w₂ : Bool),
      (∀ k', keyCount m.store k' ≤ 1) →
      keyCount (((m.set k v₁ t₁ f₁ w₁).1).set k v₂ t₂ f₂ w₂).1.store k = 1 ∧
      (((m.set k v₁ t₁ f₁ w₁).1).set k v₂ t₂ f₂ w₂).1.get k = (v₂, true)) ∧
    (∀ (m : CacheManager) (k v : String) (t : Int) (f : StoreFile) (w : Bool),
      StoreWF m.store →
      (m.set k v t f w).2.2 = none →
      (newCacheManager (m.set k v t f w).2.1).get k = (v, true)) := by
  constructor
  · intro m k v₁ v₂ t₁ t₂ f₁ f₂ w₁ w₂ hcnt
    rw [set_fst, set_fst]
    constructor
    · exact keyCount_mapSet _ k _
        (le_of_eq (keyCount_mapSet m.store k _ (hcnt k)))
    · simp only [CacheManager.get]
      rw [mapGet_mapSet_self]
  · intro m k v t f w hwf herr
    cases w with
    | false => simp [CacheManager.set] at herr
    | true =>
        rw [set_file_ok]
        have hwf' : StoreWF (mapSet m.store k ⟨k, v, t⟩) :=
          storeWF_mapSet m.store k _ hwf rfl
        have hget : mapGet (mapSet m.store k ⟨k, v, t⟩) k =
            some ⟨k, v, t⟩ := mapGet_mapSet_self m.store k _
        have := reload_get (mapSet m.store k ⟨k, v, t⟩) k ⟨k, v, t⟩ hwf' hget
        simp only [newCacheManager, CacheManager.get, CacheManager.saveData]
        rw [this]

/-- Witness for C7 at concrete inputs. -/
theorem claim_C7_witness :
    keyCount ((((⟨[]⟩ : CacheManager).set "k" "a" 0 none true).1).set
      "k" "b" 1 none true).1.store "k" = 1 ∧
    ((((⟨[]⟩ : CacheManager).set "k" "a" 0 none true).1).set
      "k" "b" 1 none true).1.get "k" = ("b", true) ∧
    (newCacheManager ((⟨[]⟩ : CacheManager).set "k" "v" 0 none true).2.1).get
      "k" = ("v", true) := by
  refine ⟨(claim_C7.1 ⟨[]⟩ "k" "a" "b" 0 1 none none true true ?_).1,
    (claim_C7.1 ⟨[]⟩ "k" "a" "b" 0 1 none none true true ?_).2,
    claim_C7.2 ⟨[]⟩ "k" "v" 0 none true ⟨?_, ?_⟩ rfl⟩
  · intro k'; simp [keyCount]
  · intro k'; simp [keyCount]
  · intro k'; simp [keyCount]
  · simp

/-! ### Retry-loop lemmas -/

/-- On a retryable outcome with no cancellation at `i`, the loop records
the attempt and recurses with the outcome's error as `lastErr`. -/
theorem retryLoop_succ_retryable (base : Nat) (att : Nat → AttemptOutcome)
    (cnl : Nat → Bool) (r i : Nat) (le : Option String)
    (hnc : ¬(0 < i ∧ cnl i = true)) (hr : retryable (att i) = true) :
    retryLoop base att cnl (r + 1) i le =
      prepend (attRec base i)
        (retryLoop base att cnl r (i + 1) (some (errOf (att i)))) := by
  cases h : att i with
  | connFail m => simp [retryLoop, hnc, h, errOf]
  | bodyFail m => simp [retryLoop, hnc, h, errOf]
  | status c body dec =>
      have hc : 500 ≤ c := by simpa [retryable, h] using hr
      simp [retryLoop, hnc, h, hc, errOf]

theorem skipErr_shift (att : Nat → AttemptOutcome) (i k : Nat)
    (le : Option String) :
    skipErr att (i + 1) k (some (errOf (att i))) = skipErr att i (k + 1) le := by
  cases k with
  | zero => simp [skipErr]
  | succ k' =>
      simp only [skipErr]
      have h : i + 1 + k' = i + (k' + 1) := by omega
      rw [h]

/-- Skipping `k` retryable, uncancelled attempts from index `i`. -/
theorem retryLoop_skip (base : Nat) (att : Nat → AttemptOutcome)
    (cnl : Nat → Bool) :
    ∀ (k r i : Nat) (le : Option String), k ≤ r →
      (∀ j, i ≤ j → j < i + k → retryable (att j) = true) →
      (∀ j, i ≤ j → j < i + k → cnl j = false) →
      retryLoop base att cnl r i le =
        ((retryLoop base att cnl (r - k) (i + k) (skipErr att i k le)).1,
          attemptsSeg base i k ++
            (retryLoop base att cnl (r - k) (i + k) (skipErr att i k le)).2) := by
  intro k
  induction k with
  | zero => intro r i le _ _ _; simp [attemptsSeg, skipErr]
  | succ k ih =>
      intro r i le hkr hret hnc
      cases r with
      | zero => omega
      | succ r' =>
          have hri : retryable (att i) = true :=
            hret i le_rfl (by omega)
          have hci : cnl i = false := hnc i le_rfl (by omega)
          have hncond : ¬(0 < i ∧ cnl i = true) := by simp [hci]
          rw [retryLoop_succ_retryable base att cnl r' i le hncond hri]
          have hret' : ∀ j, i + 1 ≤ j → j < i + 1 + k →
              retryable (att j) = true := by
            intro j h1 h2; exact hret j (by omega) (by omega)
          have hnc' : ∀ j, i + 1 ≤ j → j < i + 1 + k → cnl j = false := by
            intro j h1 h2; exact hnc j (by omega) (by omega)
          rw [show (retryLoop base att cnl r' (i + 1) (some (errOf (att i)))) =
            ((retryLoop base att cnl (r' - k) (i + 1 + k)
                (skipErr att (i + 1) k (some (errOf (att i))))).1,
              attemptsSeg base (i + 1) k ++
                (retryLoop base att cnl (r' - k) (i + 1 + k)
                  (skipErr att (i + 1) k (some (errOf (att i))))).2)
            from ih r' (i + 1) (some (errOf (att i))) (by omega) hret' hnc']
          rw [skipErr_shift att i k le]
          have harith : i + 1 + k = i + (k + 1) := by omega
          have hsub : r' + 1 - (k + 1) = r' - k := by omega
          rw [harith, hsub]
          simp [prepend, attemptsSeg]

/-- The loop makes at most `remaining` attempts. -/
theorem retryLoop_length (base : Nat) (att : Nat → AttemptOutcome)
    (cnl : Nat → Bool) :
    ∀ (r i : Nat) (le : Option String),
      (retryLoop base att cnl r i le).2.length ≤ r := by
  intro r
  induction r with
  | zero => intro i le; simp [retryLoop]
  | succ r ih =>
      intro i le
      by_cases hc : 0 < i ∧ cnl i = true
      · simp [retryLoop, hc]
      · cases h : att i with
        | connFail m =>
            have := ih (i + 1) (some m)
            simp [retryLoop, hc, h, prepend]
            omega
        | bodyFail m =>
            have := ih (i + 1) (some m)
            simp [retryLoop, hc, h, prepend]
            omega
        | status c body dec =>
            by_cases h5 : 500 ≤ c
            · have := ih (i + 1) (some ("server error: " ++ toString c))
              simp [retryLoop, hc, h, h5, prepend]
              omega
            · by_cases h200 : c = 200
              · by_cases hdec : dec <;>
                  simp [retryLoop, hc, h, h5, h200, hdec]
              · simp [retryLoop, hc, h, h5, h200]

/-- Every recorded attempt carries the backoff the code computes for its
own index: nothing before attempt 0, `base * 2^(idx-1)` before a retry. -/
theorem retryLoop_waited (base : Nat) (att : Nat → AttemptOutcome)
    (cnl : Nat → Bool) :
    ∀ (r i : Nat) (le : Option String) (a : Attempt),
      a ∈ (retryLoop base att cnl r i le).2 →
      a.waited = if a.idx = 0 then none
        else some (base * 2 ^ (a.idx - 1)) := by
  intro r
  induction r with
  | zero => intro i le a ha; simp [retryLoop] at ha
  | succ r ih =>
      intro i le a ha
      have hrec : a = attRec base i ∨
          (∃ le', a ∈ (retryLoop base att cnl r (i + 1) le').2) := by
        by_cases hc : 0 < i ∧ cnl i = true
        · simp [retryLoop, hc] at ha
        · cases h : att i with
          | connFail m =>
              simp [retryLoop, hc, h, prepend] at ha
              rcases ha with h' | h'
              · exact Or.inl h'
              · exact Or.inr ⟨some m, h'⟩
          | bodyFail m =>
              simp [retryLoop, hc, h, prepend] at ha
              rcases ha with h' | h'
              · exact Or.inl h'
              · exact Or.inr ⟨some m, h'⟩
          | status c body dec =>
              by_cases h5 : 500 ≤ c
              · simp [retryLoop, hc, h, h5, prepend] at ha
                rcases ha with h' | h'
                · exact Or.inl h'
                · exact Or.inr ⟨some ("server error: " ++ toString c), h'⟩
              · by_cases h200 : c = 200
                · by_cases hdec : dec <;>
                    simp [retryLoop, hc, h, h5, h200, hdec] at ha <;>
                    exact Or.inl ha
                · simp [retryLoop, hc, h, h5, h200] at ha
                  exact Or.inl ha
      rcases hrec with h' | ⟨le', h'⟩
      · subst h'
        by_cases hi : i = 0
        · simp [attRec, hi]
        · simp [attRec, hi, Nat.pos_of_ne_zero hi]
      · exact ih (i + 1) le' a h'

/-- With no cancellation at `i`, the trace of a run with tries left starts
with the record for attempt `i`. -/
theorem retryLoop_trace_head (base : Nat) (att : Nat → AttemptOutcome)
    (cnl : Nat → Bool) (r i : Nat) (le : Option String)
    (hnc : ¬(0 < i ∧ cnl i = true)) :
    ∃ tl, (retryLoop base att cnl (r + 1) i le).2 = attRec base i :: tl := by
  cases h : att i with
  | connFail m =>
      exact ⟨(retryLoop base att cnl r (i + 1) (some m)).2,
        by simp [retryLoop, hnc, h, prepend]⟩
  | bodyFail m =>
      exact ⟨(retryLoop base att cnl r (i + 1) (some m)).2,
        by simp [retryLoop, hnc, h, prepend]⟩
  | status c body dec =>
      by_cases h5 : 500 ≤ c
      · exact ⟨(retryLoop base att cnl r (i + 1)
            (some ("server error: " ++ toString c))).2,
          by simp [retryLoop, hnc, h, h5, prepend]⟩
      · by_cases h200 : c = 200
        · by_cases hdec : dec
          · exact ⟨[], by simp [retryLoop, hnc, h, h5, h200, hdec]⟩
          · exact ⟨[], by simp [retryLoop, hnc, h, h5, h200, hdec]⟩
        · exact ⟨[], by simp [retryLoop, hnc, h, h5, h200]⟩

/-- C6: the retrying requester makes at most `MaxRetries + 1` tries; every
recorded retry `i ≥ 1` was preceded by a wait of `BaseDelay * 2^(i-1)`
and attempt 0 by none; a context cancelled during the backoff before
retry `i` aborts there with the cancellation result and no further
attempt; and if every attempt fails retryably the run returns
`retriesExceeded` wrapping the last underlying failure. -/
theorem claim_C6 :
    (∀ (base maxR : Nat) (att : Nat → AttemptOutcome) (cnl : Nat → Bool),
      (doRequestWithRetry base maxR att cnl).2.length ≤ maxR + 1) ∧
    (∀ (base maxR : Nat) (att : Nat → AttemptOutcome) (cnl : Nat → Bool)
        (a : Attempt), a ∈ (doRequestWithRetry base maxR att cnl).2 →
      a.waited = if a.idx = 0 then none
        else some (base * 2 ^ (a.idx - 1))) ∧
    (∀ (base maxR : Nat) (att : Nat → AttemptOutcome) (cnl : Nat → Bool)
        (i : Nat), 1 ≤ i → i ≤ maxR →
      (∀ j, j < i → retryable (att j) = true) →
      (∀ j, j < i → cnl j = false) → cnl i = true →
      doRequestWithRetry base maxR att cnl =
        (.ctxCancelled, attemptsSeg base 0 i)) ∧
    (∀ (base maxR : Nat) (att : Nat → AttemptOutcome) (cnl : Nat → Bool),
      (∀ j, j ≤ maxR → retryable (att j) = true) → (∀ j, cnl j = false) →
      (doRequestWithRetry base maxR att cnl).1 =
        .retriesExceeded (some (errOf (att maxR)))) := by
  refine ⟨fun base maxR att cnl => retryLoop_length base att cnl _ 0 none,
    fun base maxR att cnl a ha => retryLoop_waited base att cnl _ 0 none a ha,
    ?_, ?_⟩
  · intro base maxR att cnl i hi1 hi2 hret hnc hcnl
    simp only [doRequestWithRetry]
    rw [retryLoop_skip base att cnl i (maxR + 1) 0 none (by omega)
        (fun j _ hj => hret j (by omega)) (fun j _ hj => hnc j (by omega))]
    have hrem : maxR + 1 - i = (maxR - i) + 1 := by omega
    have hz : 0 + i = i := by omega
    rw [hrem, hz]
    have hpos : 0 < i := hi1
    simp [retryLoop, hpos, hcnl]
  · intro base maxR att cnl hret hnc
    simp only [doRequestWithRetry]
    rw [retryLoop_skip base att cnl (maxR + 1) (maxR + 1) 0 none le_rfl
        (fun j _ hj => hret j (by omega)) (fun j _ _ => hnc j)]
    simp [retryLoop, skipErr]

/-- Witness for C6 at concrete inputs. -/
theorem claim_C6_witness :
    (doRequestWithRetry 1 2 attConnBoom cnlNever).2.length ≤ 3 ∧
    (⟨1, some 1⟩ : Attempt).waited =
      (if (⟨1, some 1⟩ : Attempt).idx = 0 then none
        else some (1 * 2 ^ ((⟨1, some 1⟩ : Attempt).idx - 1))) ∧
    doRequestWithRetry 1 2 att503 cnlAt2 =
      (.ctxCancelled, attemptsSeg 1 0 2) ∧
    (doRequestWithRetry 1 2 attConnBoom cnlNever).1 =
      .retriesExceeded (some "boom") := by
  refine ⟨claim_C6.1 1 2 attConnBoom cnlNever,
    claim_C6.2.1 1 2 attConnBoom cnlNever ⟨1, some 1⟩ (by decide),
    claim_C6.2.2.1 1 2 att503 cnlAt2 2 (by decide) (by decide)
      (fun j _ => rfl) (fun j hj => by simp [cnlAt2]; omega) (by decide),
    claim_C6.2.2.2 1 2 attConnBoom cnlNever (fun j _ => rfl) (fun j => rfl)⟩

/-- C5 as written is false: the code treats only HTTP 200 as success, so a
201 — a successful 2xx status — is returned as a terminal error, not
decoded as success. -/
theorem claim_C5_counterexample :
    doRequestWithRetry 1 2 att201 cnlNever =
      (.httpError 201 "created", [⟨0, none⟩]) := by rfl

/-- C5 (amended): connection failures, body-read failures and 5xx statuses
are retryable — with the prior attempts retryable and no cancellation,
another attempt follows; any status below 500 other than exactly 200
(including non-200 2xx codes) terminates the loop immediately with an
error carrying the status and body; a 200 response is decoded and
returned as success. -/
theorem claim_C5 :
    (∀ (base maxR : Nat) (att : Nat → AttemptOutcome) (cnl : Nat → Bool)
        (i : Nat), i < maxR →
      (∀ j, j ≤ i → retryable (att j) = true) →
      (∀ j, j ≤ i + 1 → cnl j = false) →
      attRec base (i + 1) ∈ (doRequestWithRetry base maxR att cnl).2) ∧
    (∀ (base maxR : Nat) (att : Nat → AttemptOutcome) (cnl : Nat → Bool)
        (i c : Nat) (body : String) (dec : Bool),
      i ≤ maxR → (∀ j, j < i → retryable (att j) = true) →
      (∀ j, j ≤ i → cnl j = false) →
      att i = .status c body dec → c < 500 → c ≠ 200 →
      doRequestWithRetry base maxR att cnl =
        (.httpError c body, attemptsSeg base 0 i ++ [attRec base i])) ∧
    (∀ (base maxR : Nat) (att : Nat → AttemptOutcome) (cnl : Nat → Bool)
        (i : Nat) (body : String),
      i ≤ maxR → (∀ j, j < i → retryable (att j) = true) →
      (∀ j, j ≤ i → cnl j = false) →
      att i = .status 200 body true →
      doRequestWithRetry base maxR att cnl =
        (.success body, attemptsSeg base 0 i ++ [attRec base i])) := by
  refine ⟨?_, ?_, ?_⟩
  · intro base maxR att cnl i hi hret hnc
    simp only [doRequestWithRetry]
    rw [retryLoop_skip base att cnl (i + 1) (maxR + 1) 0 none (by omega)
        (fun j _ hj => hret j (by omega)) (fun j _ hj => hnc j (by omega))]
    have hrem : maxR + 1 - (i + 1) = (maxR - i - 1) + 1 := by omega
    have hz : 0 + (i + 1) = i + 1 := by omega
    rw [hrem, hz]
    have hcnl : ¬(0 < i + 1 ∧ cnl (i + 1) = true) := by
      simp [hnc (i + 1) le_rfl]
    obtain ⟨tl, htl⟩ := retryLoop_trace_head base att cnl (maxR - i - 1)
      (i + 1) (skipErr att 0 (i + 1) none) hcnl
    simp only [htl]
    exact List.mem_append_right _ (List.mem_cons_self _ _)
  · intro base maxR att cnl i c body dec hi hret hnc hatt hc5 hc200
    simp only [doRequestWithRetry]
    rw [retryLoop_skip base att cnl i (maxR + 1) 0 none (by omega)
        (fun j _ hj => hret j (by omega)) (fun j _ hj => hnc j (by omega))]
    have hrem : maxR + 1 - i = (maxR - i) + 1 := by omega
    have hz : 0 + i = i := by omega
    rw [hrem, hz]
    have hcnl : ¬(0 < i ∧ cnl i = true) := by simp [hnc i le_rfl]
    simp [retryLoop, hcnl, hatt, Nat.not_le.mpr hc5, hc200]
  · intro base maxR att cnl i body hi hret hnc hatt
    simp only [doRequestWithRetry]
    rw [retryLoop_skip base att cnl i (maxR + 1) 0 none (by omega)
        (fun j _ hj => hret j (by omega)) (fun j _ hj => hnc j (by omega))]
    have hrem : maxR + 1 - i = (maxR - i) + 1 := by omega
    have hz : 0 + i = i := by omega
    rw [hrem, hz]
    have hcnl : ¬(0 < i ∧ cnl i = true) := by simp [hnc i le_rfl]
    simp [retryLoop, hcnl, hatt]

/-- Witness for C5 (amended) at concrete inputs. -/
theorem claim_C5_witness :
    (⟨1, some 1⟩ : Attempt) ∈ (doRequestWithRetry 1 2 attConnBoom cnlNever).2 ∧
    doRequestWithRetry 1 2 att404 cnlNever =
      (.httpError 404 "nf", attemptsSeg 1 0 0 ++ [attRec 1 0]) ∧
    doRequestWithRetry 1 2 att200 cnlNever =
      (.success "okbody", attemptsSeg 1 0 0 ++ [attRec 1 0]) := by
  refine ⟨?_,
    claim_C5.2.1 1 2 att404 cnlNever 0 404 "nf" true (by omega)
      (fun j hj => by omega) (fun j _ => rfl) rfl (by omega) (by omega),
    claim_C5.2.2 1 2 att200 cnlNever 0 "okbody" (by omega)
      (fun j hj => by omega) (fun j _ => rfl) rfl⟩
  have h := claim_C5.1 1 2 attConnBoom cnlNever 0 (by omega)
    (fun j _ => rfl) (fun j _ => rfl)
  simpa [attRec] using h

/-! ### Credential-manager theorems -/

/-- The refresh path of the amended C4, shared by `claim_C4`. -/
theorem refresh_ok_future (now : Int) (st : ClientState)
    (outcome : TokenFetchOutcome) (a : String)
    (hT : ∀ tok T em, outcome = .response tok T 0 em → 300 < T)
    (hok : (refreshToken now st outcome).1 = .ok a) :
    ∃ t, (refreshToken now st outcome).2.token = some t ∧
      t.accessToken = a ∧ now < t.expiresAt := by
  cases outcome with
  | reqError m => simp [refreshToken] at hok
  | response tok T ec em =>
      by_cases hec : ec ≠ 0
      · simp [refreshToken, hec] at hok
      · push_neg at hec
        subst hec
        have h300 : 300 < T := hT tok T em rfl
        simp only [refreshToken, ne_eq, not_true_eq_false, if_false] at hok ⊢
        refine ⟨⟨tok, now + (T - 300)⟩, by simp, ?_,
          by show now < now + (T - 300); omega⟩
        simpa using hok

/-- C4 as written is false: a successful refresh reporting
`expires_in = 100` stores expiry `now - 200` — in the past — and the
refreshing caller is returned that token anyway. -/
theorem claim_C4_counterexample :
    refreshToken 1000 ⟨none⟩ (.response "tok" 100 0 "") =
      (.ok "tok", ⟨some ⟨"tok", 800⟩⟩) ∧ (800 : Int) < 1000 := by
  exact ⟨rfl, by norm_num⟩

/-- C4 (amended): a successful refresh with server-reported
`expires_in = T` stores expiry exactly `now + T - 300`; and provided
every successful token response reports `expires_in` above the 300-second
safety margin, no caller of `GetAccessToken` is returned a token whose
stored expiry is not strictly in the future at the moment of return. -/
theorem claim_C4 :
    (∀ (now : Int) (st : ClientState) (tok : String) (T : Int) (em : String),
      refreshToken now st (.response tok T 0 em) =
        (.ok tok, ⟨some ⟨tok, now + (T - 300)⟩⟩)) ∧
    (∀ (now : Int) (st : ClientState) (outcome : TokenFetchOutcome)
        (a : String),
      (∀ tok T em, outcome = .response tok T 0 em → 300 < T) →
      (getAccessToken now st outcome).1 = .ok a →
      ∃ t, (getAccessToken now st outcome).2.token = some t ∧
        t.accessToken = a ∧ now < t.expiresAt) := by
  constructor
  · intro now st tok T em
    simp [refreshToken]
  · intro now st outcome a hT hok
    cases hst : st.token with
    | none =>
        have heq : getAccessToken now st outcome = refreshToken now st outcome := by
          simp [getAccessToken, hst]
        rw [heq] at hok ⊢
        exact refresh_ok_future now st outcome a hT hok
    | some t =>
        by_cases hv : now < t.expiresAt
        · have heq : getAccessToken now st outcome = (.ok t.accessToken, st) := by
            simp [getAccessToken, hst, hv]
          rw [heq] at hok ⊢
          refine ⟨t, by simpa using hst, ?_, hv⟩
          simpa using hok
        · have heq : getAccessToken now st outcome = refreshToken now st outcome := by
            simp [getAccessToken, hst, hv]
          rw [heq] at hok ⊢
          exact refresh_ok_future now st outcome a hT hok

/-- Witness for C4 (amended) at concrete inputs. -/
theorem claim_C4_witness :
    refreshToken 0 ⟨none⟩ (.response "t" 7200 0 "") =
      (.ok "t", ⟨some ⟨"t", 0 + (7200 - 300)⟩⟩) ∧
    ∃ t, (getAccessToken 0 ⟨none⟩ (.response "t" 7200 0 "")).2.token =
        some t ∧ t.accessToken = "t" ∧ (0 : Int) < t.expiresAt := by
  refine ⟨claim_C4.1 0 ⟨none⟩ "t" 7200 "", ?_⟩
  exact claim_C4.2 0 ⟨none⟩ (.response "t" 7200 0 "") "t"
    (fun tok T em h => by cases h; omega) rfl

/-- C9: whenever a token refresh fails (request error or non-zero remote
errcode), the call returns an error and the previously stored credential
is left completely unchanged. -/
theorem claim_C9 :
    (∀ (now : Int) (st : ClientState) (outcome : TokenFetchOutcome)
        (m : String),
      (refreshToken now st outcome).1 = .error m →
      (refreshToken now st outcome).2 = st) ∧
    (∀ (now : Int) (st : ClientState) (outcome : TokenFetchOutcome)
        (m : String),
      (getAccessToken now st outcome).1 = .error m →
      (getAccessToken now st outcome).2 = st) := by
  have h1 : ∀ (now : Int) (st : ClientState) (outcome : TokenFetchOutcome)
      (m : String), (refreshToken now st outcome).1 = .error m →
      (refreshToken now st outcome).2 = st := by
    intro now st outcome m herr
    cases outcome with
    | reqError s => rfl
    | response tok T ec em =>
        by_cases hec : ec ≠ 0
        · simp [refreshToken, hec]
        · simp [refreshToken, hec] at herr
  refine ⟨h1, ?_⟩
  intro now st outcome m herr
  cases hst : st.token with
  | none =>
      have heq : getAccessToken now st outcome = refreshToken now st outcome := by
        simp [getAccessToken, hst]
      rw [heq] at herr ⊢
      exact h1 now st outcome m herr
  | some t =>
      by_cases hv : now < t.expiresAt
      · simp [getAccessToken, hst, hv] at herr
      · have heq : getAccessToken now st outcome = refreshToken now st outcome := by
          simp [getAccessToken, hst, hv]
        rw [heq] at herr ⊢
        exact h1 now st outcome m herr

/-- Witness for C9 at concrete inputs. -/
theorem claim_C9_witness :
    (refreshToken 0 ⟨some ⟨"old", 5⟩⟩ (.reqError "down")).2 =
      ⟨some ⟨"old", 5⟩⟩ ∧
    (getAccessToken 0 ⟨some ⟨"old", -5⟩⟩
      (.response "t" 7200 40164 "busy")).2 = ⟨some ⟨"old", -5⟩⟩ := by
  constructor
  · exact claim_C9.1 0 ⟨some ⟨"old", 5⟩⟩ (.reqError "down")
      "fetch access token: down" rfl
  · exact claim_C9.2 0 ⟨some ⟨"old", -5⟩⟩ (.response "t" 7200 40164 "busy")
      ("wechat api error: " ++ toString (40164 : Int) ++ " - busy") (by rfl)

/-! ### Media-manager theorems -/

theorem dropWhile_head_false {α : Type} (p : α → Bool) (l : List α)
    (c : α) (cs : List α) (h : l.dropWhile p = c :: cs) : p c = false := by
  induction l with
  | nil => simp [List.dropWhile] at h
  | cons a t ih =>
      by_cases hp : p a
      · simp [List.dropWhile, hp] at h
        exact ih h
      · simp [List.dropWhile, hp] at h
        rw [← h.1]
        simpa using hp

/-- What follows the token `%s` reads is white space or nothing. -/
theorem scanToken_rest_head (cs : List Char) (tok : String) (c : Char)
    (rest' : List Char) (h : scanToken cs = some (tok, c :: rest')) :
    isSpaceChar c = true := by
  unfold scanToken at h
  cases hd : cs.dropWhile isSpaceChar with
  | nil => rw [hd] at h; simp at h
  | cons a t =>
      rw [hd] at h
      simp only [Option.some.injEq, Prod.mk.injEq] at h
      have := dropWhile_head_false (fun c => !isSpaceChar c) (a :: t) c
        rest' h.2
      simpa using this

/-- The scan `fmt.Sscanf(cached, "%s|%s", ...)` can never succeed: the
first `%s` consumes every non-space character — any `'|'` included — so
the literal `'|'` of the format never matches the next input character.
`parseCachedInfo` therefore errors on every input. -/
theorem parseCachedInfo_error (s : String) :
    parseCachedInfo s = .error "parse cached info" := by
  unfold parseCachedInfo
  cases hs : scanToken s.toList with
  | none => rfl
  | some pr =>
      obtain ⟨tok, rest⟩ := pr
      cases rest with
      | nil => rfl
      | cons c rest' =>
          have hc := scanToken_rest_head s.toList tok c rest' hs
          have hcp : c ≠ '|' := by
            intro hcc
            subst hcc
            simp [isSpaceChar] at hc
          simp [hcp]

/-- C1: a cache hit makes `UploadImage` return with no network activity
and no state change — but, because `parseCachedInfo`'s scan always
fails, it returns a parse error instead of the cached media ID and URL.
The stored value `mediaID|url` written by the success path can never be
read back, contradicting the cache's documented purpose, so the code —
not the claim — is wrong. -/
theorem claim_C1 (env : MediaEnv) (tempDir : String) (st : MediaState)
    (p : String) (e : CacheEntry)
    (h : mapGet st.cache (imageDigest env p) = some e) :
    uploadImage env tempDir st p = (.error "parse cached info", st, []) := by
  simp [uploadImage, h, parseCachedInfo_error]

/-- Witness for C1: after one successful upload of `/img/a.png`, a second
upload of the same reference hits the cache and returns the parse error
(with no network events) instead of the recorded result. -/
theorem claim_C1_witness :
    (uploadImage envIdOk "/tmp" ⟨[], none, [], []⟩ "/img/a.png").1 =
      .ok ⟨"mid1", "http://cdn/a.png"⟩ ∧
    uploadImage envIdOk "/tmp"
        (uploadImage envIdOk "/tmp" ⟨[], none, [], []⟩ "/img/a.png").2.1
        "/img/a.png" =
      (.error "parse cached info",
        (uploadImage envIdOk "/tmp" ⟨[], none, [], []⟩ "/img/a.png").2.1,
        []) := by
  refine ⟨by rfl, claim_C1 envIdOk "/tmp" _ "/img/a.png"
    ⟨"img_/img/a.png", "mid1|http://cdn/a.png", 0⟩ (by rfl)⟩

theorem mem_insertFile (f tp : String) (d : List String) :
    f ∈ insertFile tp d ↔ f = tp ∨ f ∈ d := by
  by_cases h : tp ∈ d
  · simp only [insertFile, if_pos h]
    constructor
    · exact Or.inr
    · rintro (rfl | hm)
      exacts [h, hm]
  · simp [insertFile, h, List.mem_cons]

/-- How one `UploadImage` call touches the file system: either it leaves
disk and tracked files unchanged; or it downloads a temp file and tracks
it; or the download fails after `os.Create` (the file exists but is not
tracked). -/
theorem uploadImage_files (env : MediaEnv) (tempDir : String)
    (st : MediaState) (p : String) :
    ((uploadImage env tempDir st p).2.1.disk = st.disk ∧
      (uploadImage env tempDir st p).2.1.tempFiles = st.tempFiles) ∨
    (∃ tp, (uploadImage env tempDir st p).2.1.disk = insertFile tp st.disk ∧
      (uploadImage env tempDir st p).2.1.tempFiles = st.tempFiles ++ [tp]) ∨
    (∃ tp m, env.download p = .failAfterCreate m ∧
      (uploadImage env tempDir st p).2.1.disk = insertFile tp st.disk ∧
      (uploadImage env tempDir st p).2.1.tempFiles = st.tempFiles) := by
  cases hm : mapGet st.cache (imageDigest env p) with
  | some e => left; simp [uploadImage, hm]
  | none =>
      by_cases hu : isURL p
      · cases hd : env.download p with
        | failNoFile m =>
            left
            simp [uploadImage, hm, hu, downloadImage, hd]
        | failAfterCreate m =>
            right; right
            refine ⟨tempPathOf env tempDir p, m, ?_, ?_, ?_⟩ <;>
              simp [uploadImage, hm, hu, downloadImage, hd]
        | ok =>
            cases hup : env.uploadResult (tempPathOf env tempDir p) with
            | error m =>
                right; left
                refine ⟨tempPathOf env tempDir p, ?_, ?_⟩ <;>
                  simp [uploadImage, hm, hu, downloadImage, hd, hup]
            | ok info =>
                right; left
                refine ⟨tempPathOf env tempDir p, ?_, ?_⟩ <;>
                  simp [uploadImage, hm, hu, downloadImage, hd, hup]
      · cases hup : env.uploadResult p with
        | error m => left; simp [uploadImage, hm, hu, hup]
        | ok info => left; simp [uploadImage, hm, hu, hup]

/-- Unfolding of a batch on its first reference. -/
theorem uploadBatch_cons (env : MediaEnv) (td : String) (st : MediaState)
    (p : String) (rest : List String) :
    uploadBatch env td st (p :: rest) =
      match uploadImage env td st p with
      | (.ok info, st', tr) =>
          (⟨(p, info) :: (uploadBatch env td st' rest).1.results,
            (uploadBatch env td st' rest).1.errs⟩,
            (uploadBatch env td st' rest).2.1,
            tr ++ (uploadBatch env td st' rest).2.2)
      | (.error m, st', tr) =>
          (⟨(uploadBatch env td st' rest).1.results,
            (p, "upload " ++ p ++ ": " ++ m) ::
              (uploadBatch env td st' rest).1.errs⟩,
            (uploadBatch env td st' rest).2.1,
            tr ++ (uploadBatch env td st' rest).2.2) := by
  rcases hres : uploadImage env td st p with ⟨r, st', tr⟩
  cases r <;> simp [uploadBatch, hres]

/-- The state a batch ends in, and its trace, factor through the head
reference. -/
theorem uploadBatch_cons_state (env : MediaEnv) (td : String)
    (st : MediaState) (p : String) (rest : List String) :
    (uploadBatch env td st (p :: rest)).2.1 =
      (uploadBatch env td (uploadImage env td st p).2.1 rest).2.1 ∧
    (uploadBatch env td st (p :: rest)).2.2 =
      (uploadImage env td st p).2.2 ++
        (uploadBatch env td (uploadImage env td st p).2.1 rest).2.2 := by
  rw [uploadBatch_cons]
  rcases hres : uploadImage env td st p with ⟨r, st', tr⟩
  cases r <;> simp

/-- Throughout a batch, tracked temp files persist, and (when no download
fails after creating its file) every file on disk at the end was either
there at the start or is tracked at the end. -/
theorem uploadBatch_files (env : MediaEnv) (td : String)
    (hcp : ∀ u m, env.download u ≠ .failAfterCreate m) :
    ∀ (paths : List String) (st : MediaState),
      (∀ f, f ∈ st.tempFiles →
        f ∈ (uploadBatch env td st paths).2.1.tempFiles) ∧
      (∀ f, f ∈ (uploadBatch env td st paths).2.1.disk →
        f ∈ st.disk ∨ f ∈ (uploadBatch env td st paths).2.1.tempFiles) := by
  intro paths
  induction paths with
  | nil =>
      intro st
      constructor
      · intro f hf; simpa [uploadBatch] using hf
      · intro f hf; left; simpa [uploadBatch] using hf
  | cons p rest ih =>
      intro st
      have hc := (uploadBatch_cons_state env td st p rest).1
      have hchar := uploadImage_files env td st p
      have hmono : ∀ f, f ∈ st.tempFiles →
          f ∈ (uploadImage env td st p).2.1.tempFiles := by
        intro f hf
        rcases hchar with ⟨_, ht⟩ | ⟨tp, _, ht⟩ | ⟨tp, m, hdl, _, _⟩
        · rw [ht]; exact hf
        · rw [ht]; exact List.mem_append_left _ hf
        · exact absurd hdl (hcp p m)
      constructor
      · intro f hf
        rw [hc]
        exact (ih _).1 f (hmono f hf)
      · intro f hf
        rw [hc] at hf ⊢
        rcases (ih _).2 f hf with hdisk | htemp
        · rcases hchar with ⟨hd, _⟩ | ⟨tp, hd, ht⟩ | ⟨tp, m, hdl, _, _⟩
          · rw [hd] at hdisk; exact Or.inl hdisk
          · rw [hd] at hdisk
            rcases (mem_insertFile f tp st.disk).mp hdisk with rfl | hin
            · right
              apply (ih _).1
              rw [ht]
              exact List.mem_append_right _ (List.mem_cons_self _ _)
            · exact Or.inl hin
          · exact absurd hdl (hcp p m)
        · exact Or.inr htemp

/-- What `Cleanup` does to the state. -/
theorem cleanup_spec (st : MediaState) :
    (cleanup st).tempFiles = [] ∧
    ∀ f, f ∈ (cleanup st).disk ↔ f ∈ st.disk ∧ f ∉ st.tempFiles := by
  constructor
  · rfl
  · intro f
    simp [cleanup, keptAfterCleanup, List.mem_filter]

/-- C3 as written is false: a fully successful batch over one remote URL
completes with its downloaded temp file still on disk — the batch does
not delete it. -/
theorem claim_C3_counterexample :
    (uploadBatch envIdOk "/tmp" ⟨[], none, [], []⟩
      ["http://h/a.png"]).1.errs = [] ∧
    (uploadBatch envIdOk "/tmp" ⟨[], none, [], []⟩
      ["http://h/a.png"]).2.1.disk = ["/tmp/http://h/a.png.png"] :=
  ⟨rfl, rfl⟩

/-- C3 (amended): a batch does not delete its temporary files when it
completes; it records them, and they are deleted only when
`Manager.Cleanup` runs (in `main`, deferred to process exit).  `Cleanup`
empties the tracked list and removes every tracked file, so — provided no
download fails after creating its file — a batch started on an empty temp
directory followed by `Cleanup` leaves no file behind, whatever the
individual targets did. -/
theorem claim_C3 :
    (∀ st : MediaState, (cleanup st).tempFiles = [] ∧
      ∀ f, f ∈ (cleanup st).disk ↔ f ∈ st.disk ∧ f ∉ st.tempFiles) ∧
    (∀ (env : MediaEnv) (tempDir : String) (st : MediaState)
        (paths : List String),
      st.disk = [] →
      (∀ u m, env.download u ≠ .failAfterCreate m) →
      (cleanup (uploadBatch env tempDir st paths).2.1).disk = []) := by
  refine ⟨cleanup_spec, ?_⟩
  intro env td st paths hdisk hcp
  apply List.eq_nil_iff_forall_not_mem.mpr
  intro f hf
  rw [(cleanup_spec _).2 f] at hf
  rcases (uploadBatch_files env td hcp paths st).2 f hf.1 with h | h
  · rw [hdisk] at h
    exact absurd h (List.not_mem_nil f)
  · exact hf.2 h

/-- Witness for C3 (amended) at concrete inputs. -/
theorem claim_C3_witness :
    (cleanup (uploadBatch envIdOk "/tmp" ⟨[], none, [], []⟩
      ["http://h/a.png"]).2.1).disk = [] ∧
    (cleanup ⟨[], none, ["/a"], ["/a", "/b"]⟩).tempFiles = [] := by
  constructor
  · exact claim_C3.2 envIdOk "/tmp" ⟨[], none, [], []⟩ ["http://h/a.png"]
      rfl (fun u m => by simp [envIdOk])
  · exact (claim_C3.1 ⟨[], none, ["/a"], ["/a", "/b"]⟩).1

/-- On a cache miss, the result and the trace of `UploadImage` depend only
on the environment and the reference (and equal the solo run's). -/
theorem uploadImage_miss (env : MediaEnv) (td : String) (st : MediaState)
    (p : String) (hm : mapGet st.cache (imageDigest env p) = none) :
    (uploadImage env td st p).1 = soloOutcome env td p ∧
    (uploadImage env td st p).2.2 = soloTrace env td p := by
  unfold soloOutcome soloTrace
  by_cases hu : isURL p
  · cases hd : env.download p with
    | failNoFile m =>
        constructor <;> simp [uploadImage, hm, hu, downloadImage, hd, mapGet]
    | failAfterCreate m =>
        constructor <;> simp [uploadImage, hm, hu, downloadImage, hd, mapGet]
    | ok =>
        cases hup : env.uploadResult (tempPathOf env td p) with
        | error m =>
            constructor <;>
              simp [uploadImage, hm, hu, downloadImage, hd, hup, mapGet]
        | ok info =>
            constructor <;>
              simp [uploadImage, hm, hu, downloadImage, hd, hup, mapGet]
  · cases hup : env.uploadResult p with
    | error m => constructor <;> simp [uploadImage, hm, hu, hup, mapGet]
    | ok info => constructor <;> simp [uploadImage, hm, hu, hup, mapGet]

/-- `UploadImage` either leaves the cache alone or — exactly on success —
records `mediaID|url` under the reference's digest. -/
theorem uploadImage_cache (env : MediaEnv) (td : String) (st : MediaState)
    (p : String) :
    (uploadImage env td st p).2.1.cache = st.cache ∨
    ∃ info, (uploadImage env td st p).1 = .ok info ∧
      (uploadImage env td st p).2.1.cache =
        mapSet st.cache (imageDigest env p)
          ⟨imageDigest env p, info.mediaID ++ "|" ++ info.url, env.now⟩ := by
  cases hm : mapGet st.cache (imageDigest env p) with
  | some e => left; simp [uploadImage, hm]
  | none =>
      by_cases hu : isURL p
      · cases hd : env.download p with
        | failNoFile m => left; simp [uploadImage, hm, hu, downloadImage, hd]
        | failAfterCreate m =>
            left; simp [uploadImage, hm, hu, downloadImage, hd]
        | ok =>
            cases hup : env.uploadResult (tempPathOf env td p) with
            | error m =>
                left; simp [uploadImage, hm, hu, downloadImage, hd, hup]
            | ok info =>
                right
                refine ⟨info, ?_, ?_⟩ <;>
                  simp [uploadImage, hm, hu, downloadImage, hd, hup, set_fst]
      · cases hup : env.uploadResult p with
        | error m => left; simp [uploadImage, hm, hu, hup]
        | ok info =>
            right
            refine ⟨info, ?_, ?_⟩ <;>
              simp [uploadImage, hm, hu, hup, set_fst]

/-- Every network event `UploadImage` emits concerns its own reference. -/
theorem uploadImage_trace_refs (env : MediaEnv) (td : String)
    (st : MediaState) (p : String) :
    ∀ e ∈ (uploadImage env td st p).2.2,
      (∃ lp, e = .upload p lp) ∨ e = .download p := by
  intro e he
  cases hm : mapGet st.cache (imageDigest env p) with
  | some e' => simp [uploadImage, hm] at he
  | none =>
      by_cases hu : isURL p
      · cases hd : env.download p with
        | failNoFile m =>
            simp [uploadImage, hm, hu, downloadImage, hd] at he
            simp [he]
        | failAfterCreate m =>
            simp [uploadImage, hm, hu, downloadImage, hd] at he
            simp [he]
        | ok =>
            cases hup : env.uploadResult (tempPathOf env td p) with
            | error m =>
                simp [uploadImage, hm, hu, downloadImage, hd, hup] at he
                rcases he with he | he
                · simp [he]
                · exact Or.inl ⟨_, he⟩
            | ok info =>
                simp [uploadImage, hm, hu, downloadImage, hd, hup] at he
                rcases he with he | he
                · simp [he]
                · exact Or.inl ⟨_, he⟩
      · cases hup : env.uploadResult p with
        | error m =>
            simp [uploadImage, hm, hu, hup] at he
            exact Or.inl ⟨_, he⟩
        | ok info =>
            simp [uploadImage, hm, hu, hup] at he
            exact Or.inl ⟨_, he⟩

theorem uploadCount_append (tr₁ tr₂ : List NetEvent) (p : String) :
    uploadCount (tr₁ ++ tr₂) p = uploadCount tr₁ p + uploadCount tr₂ p := by
  induction tr₁ with
  | nil => simp [uploadCount]
  | cons e tr ih =>
      cases e with
      | download u => simpa [uploadCount] using ih
      | upload r lp => simp [uploadCount, ih]; omega

theorem uploadCount_zero (tr : List NetEvent) (p : String)
    (h : ∀ lp, NetEvent.upload p lp ∉ tr) : uploadCount tr p = 0 := by
  induction tr with
  | nil => rfl
  | cons e tr ih =>
      have htl : ∀ lp, NetEvent.upload p lp ∉ tr := by
        intro lp hmem
        exact h lp (List.mem_cons_of_mem _ hmem)
      cases e with
      | download u => simpa [uploadCount] using ih htl
      | upload r lp =>
          have hrp : r ≠ p := by
            intro hr
            subst hr
            exact h lp (List.mem_cons_self _ _)
          simp [uploadCount, hrp, ih htl]

/-- Every network event of a batch concerns one of the batch's
references. -/
theorem uploadBatch_trace_refs (env : MediaEnv) (td : String) :
    ∀ (paths : List String) (st : MediaState)
      (e : NetEvent), e ∈ (uploadBatch env td st paths).2.2 →
      ∃ q ∈ paths, (∃ lp, e = .upload q lp) ∨ e = .download q := by
  intro paths
  induction paths with
  | nil => intro st e he; simp [uploadBatch] at he
  | cons p rest ih =>
      intro st e he
      rw [(uploadBatch_cons_state env td st p rest).2] at he
      rcases List.mem_append.mp he with he | he
      · exact ⟨p, by simp, uploadImage_trace_refs env td st p e he⟩
      · obtain ⟨q, hq, hq'⟩ := ih _ e he
        exact ⟨q, by simp [hq], hq'⟩

/-- A successful solo run uploads its reference exactly once. -/
theorem soloTrace_count_ok (env : MediaEnv) (td p : String)
    (info : ImageInfo) (h : soloOutcome env td p = .ok info) :
    uploadCount (soloTrace env td p) p = 1 := by
  unfold soloOutcome at h
  unfold soloTrace
  by_cases hu : isURL p
  · cases hd : env.download p with
    | failNoFile m => simp [uploadImage, hu, downloadImage, hd, mapGet] at h
    | failAfterCreate m =>
        simp [uploadImage, hu, downloadImage, hd, mapGet] at h
    | ok =>
        cases hup : env.uploadResult (tempPathOf env td p) with
        | error m =>
            simp [uploadImage, hu, downloadImage, hd, hup, mapGet] at h
        | ok info' =>
            simp [uploadImage, hu, downloadImage, hd, hup, mapGet,
              uploadCount]
  · cases hup : env.uploadResult p with
    | error m => simp [uploadImage, hu, hup, mapGet] at h
    | ok info' => simp [uploadImage, hu, hup, mapGet, uploadCount]

/-- Distinct digests of the reference strings give distinct cache keys. -/
theorem imageDigest_ne (env : MediaEnv) (p q : String)
    (h : env.md5hex p ≠ env.md5hex q) :
    imageDigest env p ≠ imageDigest env q := by
  intro heq
  apply h
  have hd := congrArg String.data heq
  simp only [imageDigest, String.data_append] at hd
  have := List.append_cancel_left hd
  cases hp : env.md5hex p with
  | mk l₁ =>
      cases hq : env.md5hex q with
      | mk l₂ =>
          rw [hp, hq] at this
          simp only [String.data] at this
          exact congrArg String.mk this

/-- Batch unfolding when the head reference succeeds. -/
theorem uploadBatch_cons_ok (env : MediaEnv) (td : String) (st : MediaState)
    (p : String) (rest : List String) {info : ImageInfo} {st' : MediaState}
    {tr : List NetEvent} (h : uploadImage env td st p = (.ok info, st', tr)) :
    uploadBatch env td st (p :: rest) =
      (⟨(p, info) :: (uploadBatch env td st' rest).1.results,
        (uploadBatch env td st' rest).1.errs⟩,
        (uploadBatch env td st' rest).2.1,
        tr ++ (uploadBatch env td st' rest).2.2) := by
  simp [uploadBatch, h]

/-- Batch unfolding when the head reference fails. -/
theorem uploadBatch_cons_error (env : MediaEnv) (td : String)
    (st : MediaState) (p : String) (rest : List String) {m : String}
    {st' : MediaState} {tr : List NetEvent}
    (h : uploadImage env td st p = (.error m, st', tr)) :
    uploadBatch env td st (p :: rest) =
      (⟨(uploadBatch env td st' rest).1.results,
        (p, "upload " ++ p ++ ": " ++ m) ::
          (uploadBatch env td st' rest).1.errs⟩,
        (uploadBatch env td st' rest).2.1,
        tr ++ (uploadBatch env td st' rest).2.2) := by
  simp [uploadBatch, h]

/-- The result map of a batch only holds the batch's references. -/
theorem uploadBatch_results_keys (env : MediaEnv) (td : String) :
    ∀ (paths : List String) (st : MediaState)
      (pr : String × ImageInfo),
      pr ∈ (uploadBatch env td st paths).1.results → pr.1 ∈ paths := by
  intro paths
  induction paths with
  | nil => intro st pr hpr; simp [uploadBatch] at hpr
  | cons p rest ih =>
      intro st pr hpr
      rcases hres : uploadImage env td st p with ⟨r, st', tr⟩
      cases r with
      | ok info =>
          rw [uploadBatch_cons_ok env td st p rest hres] at hpr
          rcases List.mem_cons.mp hpr with h | h
          · simp [h]
          · exact List.mem_cons_of_mem _ (ih st' pr h)
      | error m =>
          rw [uploadBatch_cons_error env td st p rest hres] at hpr
          exact List.mem_cons_of_mem _ (ih st' pr hpr)

theorem lookupRes_none (l : List (String × ImageInfo)) (p : String)
    (h : ∀ pr ∈ l, pr.1 ≠ p) : lookupRes l p = none := by
  induction l with
  | nil => rfl
  | cons pr rest ih =>
      obtain ⟨q, info⟩ := pr
      have hq : q ≠ p := h (q, info) (List.mem_cons_self _ _)
      have htl : ∀ pr ∈ rest, pr.1 ≠ p :=
        fun pr hpr => h pr (List.mem_cons_of_mem _ hpr)
      simp [lookupRes, hq, ih htl]

/-- Per-target independence of a batch over distinct, cache-fresh
references with collision-free digests. -/
theorem uploadBatch_spec (env : MediaEnv) (tempDir : String) :
    ∀ (paths : List String) (st : MediaState),
      paths.Nodup →
      (∀ p ∈ paths, mapGet st.cache (imageDigest env p) = none) →
      (∀ p ∈ paths, ∀ q ∈ paths, p ≠ q →
        imageDigest env p ≠ imageDigest env q) →
      (∀ p ∈ paths, ∀ info, soloOutcome env tempDir p = .ok info →
        lookupRes (uploadBatch env tempDir st paths).1.results p =
          some info ∧
        uploadCount (uploadBatch env tempDir st paths).2.2 p = 1) ∧
      (∀ p ∈ paths, ∀ m, soloOutcome env tempDir p = .error m →
        (p, "upload " ++ p ++ ": " ++ m) ∈
          (uploadBatch env tempDir st paths).1.errs ∧
        lookupRes (uploadBatch env tempDir st paths).1.results p = none) ∧
      (∀ q ∈ (uploadBatch env tempDir st paths).1.errs, q.1 ∈ paths) := by
  intro paths
  induction paths with
  | nil =>
      intro st _ _ _
      refine ⟨fun p hp => absurd hp (List.not_mem_nil p),
        fun p hp => absurd hp (List.not_mem_nil p), fun q hq => ?_⟩
      simp [uploadBatch] at hq
  | cons p rest ih =>
      intro st hnd hfresh hinj
      have hmemp : p ∈ p :: rest := List.mem_cons_self _ _
      have hm : mapGet st.cache (imageDigest env p) = none := hfresh p hmemp
      have hmiss := uploadImage_miss env tempDir st p hm
      have hpnot : p ∉ rest := (List.nodup_cons.mp hnd).1
      have hnd' : rest.Nodup := (List.nodup_cons.mp hnd).2
      have hfresh' : ∀ q ∈ rest,
          mapGet (uploadImage env tempDir st p).2.1.cache
            (imageDigest env q) = none := by
        intro q hq
        have hqp : p ≠ q := fun h => hpnot (h ▸ hq)
        have hdig : imageDigest env p ≠ imageDigest env q :=
          hinj p hmemp q (List.mem_cons_of_mem _ hq) hqp
        rcases uploadImage_cache env tempDir st p with hsame | ⟨i₀, _, hset⟩
        · rw [hsame]; exact hfresh q (List.mem_cons_of_mem _ hq)
        · rw [hset, mapGet_mapSet_ne _ _ _ _ hdig]
          exact hfresh q (List.mem_cons_of_mem _ hq)
      have hinj' : ∀ a ∈ rest, ∀ b ∈ rest, a ≠ b →
          imageDigest env a ≠ imageDigest env b := fun a ha b hb hab =>
        hinj a (List.mem_cons_of_mem _ ha) b (List.mem_cons_of_mem _ hb) hab
      have IH := ih ((uploadImage env tempDir st p).2.1) hnd' hfresh' hinj'
      have hresttr_zero : uploadCount (uploadBatch env tempDir
          (uploadImage env tempDir st p).2.1 rest).2.2 p = 0 := by
        apply uploadCount_zero
        intro lp hmem
        obtain ⟨q, hq, hcase⟩ :=
          uploadBatch_trace_refs env tempDir rest _ _ hmem
        rcases hcase with ⟨lp', heq⟩ | heq
        · injection heq with h1 _
          exact hpnot (h1 ▸ hq)
        · cases heq
      have hheadtr_zero : ∀ q, q ≠ p →
          uploadCount (uploadImage env tempDir st p).2.2 q = 0 := by
        intro q hq
        apply uploadCount_zero
        intro lp hmem
        rcases uploadImage_trace_refs env tempDir st p _ hmem with
          ⟨lp', heq⟩ | heq
        · injection heq with h1 _
          exact hq h1
        · cases heq
      rcases hres : uploadImage env tempDir st p with ⟨r, st', tr⟩
      have hst' : (uploadImage env tempDir st p).2.1 = st' := by rw [hres]
      have htr : (uploadImage env tempDir st p).2.2 = tr := by rw [hres]
      have hr1 : (uploadImage env tempDir st p).1 = r := by rw [hres]
      rw [hst'] at IH hresttr_zero
      rw [htr] at hheadtr_zero
      have htrsolo : tr = soloTrace env tempDir p := by
        rw [← htr]; exact hmiss.2
      have hrsolo : soloOutcome env tempDir p = r := by
        rw [← hr1]; exact hmiss.1.symm
      cases r with
      | ok info =>
          rw [uploadBatch_cons_ok env tempDir st p rest hres]
          refine ⟨?_, ?_, ?_⟩
          · intro q hq info' hsolo'
            rcases List.mem_cons.mp hq with rfl | hq'
            · have hinfo : info' = info := by
                rw [hrsolo] at hsolo'
                injection hsolo' with h
                exact h.symm
              subst hinfo
              constructor
              · simp [lookupRes]
              · simp only [uploadCount_append]
                rw [htrsolo,
                  soloTrace_count_ok env tempDir q info' (by rw [hrsolo]),
                  hresttr_zero]
            · have hqp : p ≠ q := fun h => hpnot (h ▸ hq')
              constructor
              · simp only [lookupRes, if_neg hqp]
                exact (IH.1 q hq' info' hsolo').1
              · simp only [uploadCount_append]
                rw [hheadtr_zero q (Ne.symm hqp),
                  (IH.1 q hq' info' hsolo').2]
          · intro q hq m hsolo'
            rcases List.mem_cons.mp hq with rfl | hq'
            · rw [hrsolo] at hsolo'
              cases hsolo'
            · have hqp : p ≠ q := fun h => hpnot (h ▸ hq')
              refine ⟨(IH.2.1 q hq' m hsolo').1, ?_⟩
              simp only [lookupRes, if_neg hqp]
              exact (IH.2.1 q hq' m hsolo').2
          · intro q hq
            exact List.mem_cons_of_mem _ (IH.2.2 q hq)
      | error m =>
          rw [uploadBatch_cons_error env tempDir st p rest hres]
          refine ⟨?_, ?_, ?_⟩
          · intro q hq info' hsolo'
            rcases List.mem_cons.mp hq with rfl | hq'
            · rw [hrsolo] at hsolo'
              cases hsolo'
            · have hqp : p ≠ q := fun h => hpnot (h ▸ hq')
              constructor
              · exact (IH.1 q hq' info' hsolo').1
              · simp only [uploadCount_append]
                rw [hheadtr_zero q (Ne.symm hqp),
                  (IH.1 q hq' info' hsolo').2]
          · intro q hq m' hsolo'
            rcases List.mem_cons.mp hq with rfl | hq'
            · have hm' : m' = m := by
                rw [hrsolo] at hsolo'
                injection hsolo' with h
                exact h.symm
              subst hm'
              constructor
              · exact List.mem_cons_self _ _
              · apply lookupRes_none
                intro pr hpr
                intro hpr1
                apply hpnot
                rw [← hpr1]
                exact uploadBatch_results_keys env tempDir rest st' pr hpr
            · refine ⟨List.mem_cons_of_mem _ (IH.2.1 q hq' m' hsolo').1, ?_⟩
              exact (IH.2.1 q hq' m' hsolo').2
          · intro q hq
            rcases List.mem_cons.mp hq with rfl | hq'
            · exact List.mem_cons_self _ _
            · exact List.mem_cons_of_mem _ (IH.2.2 q hq')

/-- C8: over distinct, cache-fresh references with collision-free digests,
one target's failure does not abort the others: every target whose own
pipeline succeeds is uploaded exactly once and appears in the returned
map with its result; every failing target is recorded in the aggregate
error list as `upload <ref>: <cause>` and is absent from the map; and
the error list names only the batch's references. -/
theorem claim_C8 (env : MediaEnv) (tempDir : String) :
    ∀ (paths : List String) (st : MediaState),
      paths.Nodup →
      (∀ p ∈ paths, mapGet st.cache (imageDigest env p) = none) →
      (∀ p ∈ paths, ∀ q ∈ paths, p ≠ q →
        imageDigest env p ≠ imageDigest env q) →
      (∀ p ∈ paths, ∀ info, soloOutcome env tempDir p = .ok info →
        lookupRes (uploadBatch env tempDir st paths).1.results p =
          some info ∧
        uploadCount (uploadBatch env tempDir st paths).2.2 p = 1) ∧
      (∀ p ∈ paths, ∀ m, soloOutcome env tempDir p = .error m →
        (p, "upload " ++ p ++ ": " ++ m) ∈
          (uploadBatch env tempDir st paths).1.errs ∧
        lookupRes (uploadBatch env tempDir st paths).1.results p = none) ∧
      (∀ q ∈ (uploadBatch env tempDir st paths).1.errs, q.1 ∈ paths) :=
  uploadBatch_spec env tempDir

/-- Witness for C8 at concrete inputs: a two-target batch where
`/bad.png` always fails and `/a.png` succeeds. -/
theorem claim_C8_witness :
    lookupRes (uploadBatch envMixed "/tmp" ⟨[], none, [], []⟩
      ["/a.png", "/bad.png"]).1.results "/a.png" = some ⟨"mid1", "u1"⟩ ∧
    uploadCount (uploadBatch envMixed "/tmp" ⟨[], none, [], []⟩
      ["/a.png", "/bad.png"]).2.2 "/a.png" = 1 ∧
    ("/bad.png", "upload /bad.png: upload to wechat: boom") ∈
      (uploadBatch envMixed "/tmp" ⟨[], none, [], []⟩
        ["/a.png", "/bad.png"]).1.errs ∧
    lookupRes (uploadBatch envMixed "/tmp" ⟨[], none, [], []⟩
      ["/a.png", "/bad.png"]).1.results "/bad.png" = none := by
  have h := claim_C8 envMixed "/tmp" ["/a.png", "/bad.png"]
    ⟨[], none, [], []⟩ (by decide) (fun p _ => rfl) (by decide)
  have ha := h.1 "/a.png" (by simp) ⟨"mid1", "u1"⟩ rfl
  have hb := h.2.1 "/bad.png" (by simp) "upload to wechat: boom" rfl
  exact ⟨ha.1, ha.2, hb.1, hb.2⟩

/-- C10: the cache key of an image is derived solely from its reference
string: with the digest function unchanged, a reference already in the
cache short-circuits — no network event, no state change — no matter how
the content behind it (the whole network behavior) has changed; and two
distinct references whose string digests differ get distinct cache keys
and are each uploaded separately, exactly once. -/
theorem claim_C10 :
    (∀ (env env2 : MediaEnv) (tempDir : String) (st : MediaState)
        (p : String) (e : CacheEntry),
      env2.md5hex = env.md5hex →
      mapGet st.cache (imageDigest env p) = some e →
      (uploadImage env2 tempDir st p).2.2 = [] ∧
      (uploadImage env2 tempDir st p).2.1 = st) ∧
    (∀ (env : MediaEnv) (p q : String),
      env.md5hex p ≠ env.md5hex q →
      imageDigest env p ≠ imageDigest env q) ∧
    (∀ (env : MediaEnv) (tempDir : String) (st : MediaState) (p q : String)
        (i₁ i₂ : ImageInfo),
      p ≠ q → env.md5hex p ≠ env.md5hex q →
      mapGet st.cache (imageDigest env p) = none →
      mapGet st.cache (imageDigest env q) = none →
      soloOutcome env tempDir p = .ok i₁ →
      soloOutcome env tempDir q = .ok i₂ →
      uploadCount (uploadBatch env tempDir st [p, q]).2.2 p = 1 ∧
      uploadCount (uploadBatch env tempDir st [p, q]).2.2 q = 1) := by
  refine ⟨?_, imageDigest_ne, ?_⟩
  · intro env env2 td st p e hmd5 hhit
    have hdig : imageDigest env2 p = imageDigest env p := by
      simp [imageDigest, hmd5]
    have hhit2 : mapGet st.cache (imageDigest env2 p) = some e := by
      rw [hdig]; exact hhit
    constructor <;> simp [uploadImage, hhit2]
  · intro env td st p q i₁ i₂ hpq hmd5 hfp hfq hsp hsq
    have hnd : ([p, q] : List String).Nodup := by simp [hpq]
    have hfresh : ∀ x ∈ [p, q],
        mapGet st.cache (imageDigest env x) = none := by
      intro x hx
      rcases List.mem_cons.mp hx with rfl | hx'
      · exact hfp
      · have : x = q := by simpa using hx'
        subst this
        exact hfq
    have hinj : ∀ a ∈ [p, q], ∀ b ∈ [p, q], a ≠ b →
        imageDigest env a ≠ imageDigest env b := by
      intro a ha b hb hab
      have ha' : a = p ∨ a = q := by simpa using ha
      have hb' : b = p ∨ b = q := by simpa using hb
      rcases ha' with rfl | rfl <;> rcases hb' with rfl | rfl
      · exact absurd rfl hab
      · exact imageDigest_ne env a b hmd5
      · exact imageDigest_ne env a b (Ne.symm hmd5)
      · exact absurd rfl hab
    have h := uploadBatch_spec env td [p, q] st hnd hfresh hinj
    exact ⟨(h.1 p (by simp) i₁ hsp).2, (h.1 q (by simp) i₂ hsq).2⟩

/-- Witness for C10 at concrete inputs. -/
theorem claim_C10_witness :
    ((uploadImage envChanged "/tmp"
        ⟨[("img_/x.png", ⟨"img_/x.png", "v|u", 0⟩)], none, [], []⟩
        "/x.png").2.2 = [] ∧
      (uploadImage envChanged "/tmp"
        ⟨[("img_/x.png", ⟨"img_/x.png", "v|u", 0⟩)], none, [], []⟩
        "/x.png").2.1 =
        ⟨[("img_/x.png", ⟨"img_/x.png", "v|u", 0⟩)], none, [], []⟩) ∧
    imageDigest envIdOk "/x.png" ≠ imageDigest envIdOk "/y.png" ∧
    uploadCount (uploadBatch envIdOk "/tmp" ⟨[], none, [], []⟩
      ["/x.png", "/y.png"]).2.2 "/x.png" = 1 ∧
    uploadCount (uploadBatch envIdOk "/tmp" ⟨[], none, [], []⟩
      ["/x.png", "/y.png"]).2.2 "/y.png" = 1 := by
  have h3 := claim_C10.2.2 envIdOk "/tmp" ⟨[], none, [], []⟩ "/x.png"
    "/y.png" ⟨"mid1", "http://cdn/a.png"⟩ ⟨"mid1", "http://cdn/a.png"⟩
    (by decide) (by decide) rfl rfl rfl rfl
  exact ⟨claim_C10.1 envIdOk envChanged "/tmp" _ "/x.png"
      ⟨"img_/x.png", "v|u", 0⟩ rfl (by rfl),
    claim_C10.2.1 envIdOk "/x.png" "/y.png" (by decide), h3.1, h3.2⟩

/-! ### Concurrent single-flight refresh -/

/-- Every interleaving step preserves the single-flight invariant, when
time is frozen at `now`, the stale token `t₀` is invalid, and the token
endpoint answers `tok` with `expires_in = T > 300`. -/
theorem tokInv_step (now : Int) (fetch : Nat → TokenFetchOutcome)
    (t₀ : Option Token) (tok : String) (T : Int) (n : Nat)
    (hT : 300 < T) (hfetch : ∀ k, fetch k = .response tok T 0 "")
    (hexp : tokenValid now t₀ = false)
    (s s' : CTokState) (hstep : TokStep now fetch s s')
    (hinv : TokInv t₀ ⟨tok, now + (T - 300)⟩ n s) :
    TokInv t₀ ⟨tok, now + (T - 300)⟩ n s' := by
  obtain ⟨hlen, hinv⟩ := hinv
  cases hstep with
  | fastHit i t hi ht hv =>
      rcases hinv with ⟨hf, htk, hth⟩ | ⟨hf, htk, hth⟩
      · rw [htk] at ht
        rw [ht] at hexp
        simp [tokenValid] at hexp
        exact absurd hv (by simpa using hexp)
      · refine ⟨by simpa using hlen, Or.inr ⟨hf, htk, ?_⟩⟩
        intro p hp
        rcases List.mem_or_eq_of_mem_set hp with hmem | rfl
        · exact hth p hmem
        · rw [htk] at ht
          injection ht with ht'
          right; right
          rw [← ht']
  | fastMiss i hi hv =>
      refine ⟨by simpa using hlen, ?_⟩
      rcases hinv with ⟨hf, htk, hth⟩ | ⟨hf, htk, hth⟩
      · refine Or.inl ⟨hf, htk, ?_⟩
        intro p hp
        rcases List.mem_or_eq_of_mem_set hp with hmem | rfl
        · exact hth p hmem
        · exact Or.inr rfl
      · refine Or.inr ⟨hf, htk, ?_⟩
        intro p hp
        rcases List.mem_or_eq_of_mem_set hp with hmem | rfl
        · exact hth p hmem
        · exact Or.inr (Or.inl rfl)
  | critHit i t hi ht hv =>
      rcases hinv with ⟨hf, htk, hth⟩ | ⟨hf, htk, hth⟩
      · rw [htk] at ht
        rw [ht] at hexp
        simp [tokenValid] at hexp
        exact absurd hv (by simpa using hexp)
      · refine ⟨by simpa using hlen, Or.inr ⟨hf, htk, ?_⟩⟩
        intro p hp
        rcases List.mem_or_eq_of_mem_set hp with hmem | rfl
        · exact hth p hmem
        · rw [htk] at ht
          injection ht with ht'
          right; right
          rw [← ht']
  | critRefresh i hi hv =>
      rcases hinv with ⟨hf, htk, hth⟩ | ⟨hf, htk, hth⟩
      · have hout : fetch s.fetchCount = .response tok T 0 "" := hfetch _
        have hrt : refreshToken now s.client (fetch s.fetchCount) =
            (.ok tok, ⟨some ⟨tok, now + (T - 300)⟩⟩) := by
          rw [hout]
          simp [refreshToken]
        refine ⟨by simpa using hlen, Or.inr ⟨by rw [hf], ?_, ?_⟩⟩
        · rw [hrt]
        · intro p hp
          rcases List.mem_or_eq_of_mem_set hp with hmem | rfl
          · rcases hth p hmem with h | h
            · exact Or.inl h
            · exact Or.inr (Or.inl h)
          · right; right
            rw [hrt]
      · rw [htk] at hv
        simp [tokenValid] at hv
        omega

/-- The invariant holds in every reachable state. -/
theorem tokInv_reach (now : Int) (fetch : Nat → TokenFetchOutcome)
    (t₀ : Option Token) (tok : String) (T : Int) (n : Nat)
    (hT : 300 < T) (hfetch : ∀ k, fetch k = .response tok T 0 "")
    (hexp : tokenValid now t₀ = false)
    (s₀ s : CTokState) (hreach : TokReach now fetch s₀ s)
    (hinv₀ : TokInv t₀ ⟨tok, now + (T - 300)⟩ n s₀) :
    TokInv t₀ ⟨tok, now + (T - 300)⟩ n s := by
  induction hreach with
  | refl => exact hinv₀
  | tail hsteps hstep ih =>
      exact tokInv_step now fetch t₀ tok T n hT hfetch hexp _ _ hstep ih

/-- C2: when `n ≥ 1` callers run `GetAccessToken` concurrently against an
absent-or-expired token (time frozen at `now`), and the token endpoint
answers `tok` with `expires_in = T > 300`, then in any reachable state in
which every caller finished, exactly one token-endpoint request was made
and every caller got the same fresh token. -/
theorem claim_C2 (now : Int) (fetch : Nat → TokenFetchOutcome)
    (t₀ : Option Token) (tok : String) (T : Int) (n : Nat)
    (hT : 300 < T) (hfetch : ∀ k, fetch k = .response tok T 0 "")
    (hexp : tokenValid now t₀ = false) (hn : 0 < n)
    (s : CTokState)
    (hreach : TokReach now fetch ⟨⟨t₀⟩, 0, List.replicate n .start⟩ s)
    (hdone : ∀ p ∈ s.threads, ∃ r, p = .done r) :
    s.fetchCount = 1 ∧ ∀ p ∈ s.threads, p = .done (.ok tok) := by
  have hinv₀ : TokInv t₀ ⟨tok, now + (T - 300)⟩ n
      ⟨⟨t₀⟩, 0, List.replicate n .start⟩ := by
    refine ⟨by simp, Or.inl ⟨rfl, rfl, ?_⟩⟩
    intro p hp
    left
    exact (List.eq_of_mem_replicate hp)
  have hinv := tokInv_reach now fetch t₀ tok T n hT hfetch hexp _ s
    hreach hinv₀
  obtain ⟨hlen, hinv⟩ := hinv
  rcases hinv with ⟨hf, htk, hth⟩ | ⟨hf, htk, hth⟩
  · exfalso
    have hne : s.threads ≠ [] := by
      intro h
      rw [h] at hlen
      simp at hlen
      omega
    obtain ⟨p, hp⟩ := List.exists_mem_of_ne_nil _ hne
    obtain ⟨r, hr⟩ := hdone p hp
    rcases hth p hp with h | h <;> rw [hr] at h <;> cases h
  · refine ⟨hf, ?_⟩
    intro p hp
    obtain ⟨r, hr⟩ := hdone p hp
    rcases hth p hp with h | h | h
    · rw [hr] at h; cases h
    · rw [hr] at h; cases h
    · exact h

/-- Witness for C2: an explicit interleaving of two callers — both miss
the fast path, the first refreshes under the lock, the second hits the
double check — ends with one fetch and both callers holding the fresh
token. -/
theorem claim_C2_witness :
    cs4.fetchCount = 1 ∧ ∀ p ∈ cs4.threads, p = .done (.ok "tok") := by
  have h01 : TokStep 0 fetchW cs0 cs1 := TokStep.fastMiss cs0 0 rfl rfl
  have h12 : TokStep 0 fetchW cs1 cs2 := TokStep.fastMiss cs1 1 rfl rfl
  have h23 : TokStep 0 fetchW cs2 cs3 := TokStep.critRefresh cs2 0 rfl rfl
  have h34 : TokStep 0 fetchW cs3 cs4 :=
    TokStep.critHit cs3 1 ⟨"tok", 0 + (7200 - 300)⟩ rfl rfl (by norm_num)
  have hreach : TokReach 0 fetchW ⟨⟨none⟩, 0, List.replicate 2 .start⟩ cs4 :=
    Relation.ReflTransGen.head h01 (Relation.ReflTransGen.head h12
      (Relation.ReflTransGen.head h23 (Relation.ReflTransGen.head h34
        Relation.ReflTransGen.refl)))
  refine claim_C2 0 fetchW none "tok" 7200 2 (by norm_num) (fun k => rfl)
    rfl (by norm_num) cs4 hreach ?_
  intro p hp
  rcases List.mem_cons.mp hp with rfl | hp'
  · exact ⟨.ok "tok", rfl⟩
  · have : p = .done (.ok "tok") := by simpa [cs4] using hp'
    exact ⟨.ok "tok", this⟩

end AutoWxPost
